import Mathlib

/-!
Verification of the gamification and readiness-scoring engine of the
LevelUpPracticeTracker backend (`backend/crud.py`), against its
natural-language specification.

The embedding below is a shallow model of the data records of
`backend/models.py` and of the engine operations of `backend/crud.py`.
Calendar dates are modelled as proleptic-Gregorian day ordinals
(`Int`, with ordinal 1 a Monday, matching Python's `date.toordinal` and
`date.weekday`).  Python `int` fields are modelled as `Int`; the float
arithmetic of `calculate_points` and `calculate_task_readiness` is
modelled with exact rationals (the float constants 2.0, 1.5, 1.2 and 0.2
are the intended tier values, and the IEEE evaluation of the point
formula coincides with the exact evaluation on the integer domain of
interest), with Python's `int(...)` conversion modelled as truncation
toward zero.
-/

namespace PracticeBeats

/-- Python `int(x)` applied to a non-integral value: truncation toward zero. -/
def pyInt (x : ℚ) : Int :=
  if x < 0 then ⌈x⌉ else ⌊x⌋

/-- Task status enum (`models.TaskStatus`). -/
inductive TaskStatus where
  | not_started
  | in_progress
  | ready
deriving DecidableEq, Repr

/-- A user's practice state (the gamification fields of `models.User`). -/
structure User where
  uid : Nat
  streak_count : Int
  total_points : Int
  level : Int
  last_practice_date : Option Int
deriving DecidableEq, Repr

/-- A logged practice session (`models.PracticeSession`).  `start_date` and
`start_hour` are the calendar date and hour component of `start_time`. -/
structure PSession where
  sid : Nat
  user_id : Nat
  start_date : Int
  start_hour : Nat
  duration_minutes : Int
  focus_rating : Option Int
  progress_rating : Option Int
  energy_rating : Option Int
  notes : Option String
  points_earned : Int
deriving DecidableEq, Repr

/-- A practice task (`models.PracticeTask`, the fields the engine reads). -/
structure Task where
  tid : Nat
  user_id : Nat
  estimated_minutes : Int
  total_time_practiced : Int
  practice_count : Int
  readiness_score : ℚ
  status : TaskStatus
deriving DecidableEq, Repr

/-- A session-task link (`models.SessionTask`). -/
structure SessionTask where
  session_id : Nat
  task_id : Nat
  minutes_spent : Int
deriving DecidableEq, Repr

/-- A badge grant (`models.Badge`). -/
structure Badge where
  user_id : Nat
  badge_type : String
deriving DecidableEq, Repr

/-- The data accessed by the engine: a snapshot of the stored records. -/
structure EngineState where
  users : List User
  sessions : List PSession
  tasks : List Task
  session_tasks : List SessionTask
  badges : List Badge
  next_user_id : Nat
  next_session_id : Nat
deriving Repr

/-- `crud.get_user`: first stored user with the given id. -/
def getUser (st : EngineState) (uid : Nat) : Option User :=
  st.users.find? (fun u => u.uid = uid)

/-- Write back a mutated user record (ORM identity: replace by id). -/
def setUser (st : EngineState) (u : User) : EngineState :=
  { st with users := st.users.map (fun v => if v.uid = u.uid then u else v) }

/-- `crud.get_task`: first stored task with the given id. -/
def getTask (st : EngineState) (tid : Nat) : Option Task :=
  st.tasks.find? (fun t => t.tid = tid)

/-- Write back a mutated task record (ORM identity: replace by id). -/
def setTask (st : EngineState) (t : Task) : EngineState :=
  { st with tasks := st.tasks.map (fun v => if v.tid = t.tid then t else v) }

/-- `crud.get_practice_session`: first stored session with the given id. -/
def findSession (sessions : List PSession) (sid : Nat) : Option PSession :=
  sessions.find? (fun s => s.sid = sid)

/-- Write back a mutated session record (ORM identity: replace by id). -/
def setSession (st : EngineState) (s : PSession) : EngineState :=
  { st with sessions := st.sessions.map (fun v => if v.sid = s.sid then s else v) }

/-- Python truthiness of an optional integer rating: `None` and `0` are falsy. -/
def ratingTruthy : Option Int → Bool
  | none => false
  | some v => v != 0

/-- `crud.update_streak`, as a pure state transition on the user record.
`today` is `date.today()` at call time. -/
def update_streak (today : Int) (user : User) : User :=
  let user :=
    match user.last_practice_date with
    | none => { user with streak_count := 1 }
    | some d =>
      if d = today then user
      else if d = today - 1 then { user with streak_count := user.streak_count + 1 }
      else { user with streak_count := 1 }
  { user with last_practice_date := some today }

/-- `crud.calculate_points`: XP for a session, from its duration and focus
rating and the user's (already updated) streak. -/
def calculate_points (session : PSession) (user : User) : Int :=
  let base_points : ℚ := (session.duration_minutes : ℚ)
  let multiplier : ℚ :=
    if user.streak_count ≥ 30 then 2
    else if user.streak_count ≥ 7 then 3 / 2
    else if user.streak_count ≥ 3 then 6 / 5
    else 1
  let quality_bonus : ℚ :=
    match session.focus_rating with
    | some f => if f ≠ 0 ∧ f ≥ 4 then 1 / 5 else 0
    | none => 0
  pyInt (base_points * multiplier * (1 + quality_bonus))

/-- `crud.update_user_level`: level from cumulative points, 100 XP per level
(Python `//` is floor division). -/
def update_user_level (user : User) : User :=
  { user with level := Int.fdiv user.total_points 100 + 1 }

/-- Rating points a session contributes to the readiness numerator:
2 points per level of each truthy rating. -/
def sessionRatingPoints (s : PSession) : Int :=
  (match s.focus_rating with | some f => if f ≠ 0 then f * 2 else 0 | none => 0) +
  (match s.progress_rating with | some p => if p ≠ 0 then p * 2 else 0 | none => 0) +
  (match s.energy_rating with | some e => if e ≠ 0 then e * 2 else 0 | none => 0)

/-- Whether a session counts as rated (at least one truthy rating). -/
def sessionHasRating (s : PSession) : Bool :=
  ratingTruthy s.focus_rating || ratingTruthy s.progress_rating ||
    ratingTruthy s.energy_rating

/-- Sessions linked to a task, resolved through the session-task join. -/
def linkedSessions (st : EngineState) (task : Task) : List PSession :=
  (st.session_tasks.filter (fun l => l.task_id = task.tid)).filterMap
    (fun l => findSession st.sessions l.session_id)

/-- `crud.calculate_task_readiness`: the 0-100 readiness score of a task. -/
def calculate_task_readiness (st : EngineState) (task : Task) : ℚ :=
  if task.estimated_minutes ≤ 0 then 0
  else
    let linked := linkedSessions st task
    let cumulative_rating_points : Int := (linked.map sessionRatingPoints).sum
    let rated_sessions : Nat := (linked.filter sessionHasRating).length
    let score : ℚ := (task.total_time_practiced : ℚ) + (cumulative_rating_points : ℚ)
    let max_score : ℚ := (task.estimated_minutes : ℚ) + ((rated_sessions : ℚ) * 30)
    if max_score ≤ 0 then 0
    else min (score / max_score * 100) 100

/-- Whether a user already holds a badge of the given type
(the existence query inside `award_badge`). -/
def hasBadge (badges : List Badge) (uid : Nat) (t : String) : Bool :=
  badges.any (fun b => b.user_id = uid && b.badge_type = t)

/-- The badge catalog of `crud.check_and_award_badges`, in source order,
paired with each trigger evaluated on the given inputs.  `session_count`
is the stored session count for the user (the just-logged session is
already persisted when the evaluator runs). -/
def badgeConds (session_count : Nat) (user : User) (session : PSession) :
    List (String × Bool) :=
  [("first_session", session_count = 1),
   ("streak_3", user.streak_count ≥ 3),
   ("streak_7", user.streak_count ≥ 7),
   ("streak_30", user.streak_count ≥ 30),
   ("marathon", session.duration_minutes ≥ 60),
   ("perfect_focus", session.focus_rating = some 5),
   ("early_bird", decide (session.start_hour < 8)),
   ("night_owl", decide (session.start_hour ≥ 22))]

/-- One `award_badge` call: grant the badge unless the user already holds
one of that type (checking the store including grants made earlier in the
same evaluation). -/
def awardStep (uid : Nat) (acc : List Badge × List Badge) (c : String × Bool) :
    List Badge × List Badge :=
  if c.2 then
    if hasBadge acc.1 uid c.1 then acc
    else (acc.1 ++ [⟨uid, c.1⟩], acc.2 ++ [⟨uid, c.1⟩])
  else acc

/-- `crud.check_and_award_badges`: evaluate every trigger and grant the
badges not already held.  Returns the new store and the newly granted
badges. -/
def check_and_award_badges (st : EngineState) (user : User) (session : PSession) :
    EngineState × List Badge :=
  let session_count := (st.sessions.filter (fun s => s.user_id = user.uid)).length
  let res := (badgeConds session_count user session).foldl (awardStep user.uid) (st.badges, [])
  ({ st with badges := res.1 }, res.2)

/-- The badges a full evaluation grants: one per trigger that fired whose
type the user did not already hold. -/
def expectedBadges (badges : List Badge) (uid : Nat) (conds : List (String × Bool)) :
    List Badge :=
  (conds.filter (fun c => c.2 && !(hasBadge badges uid c.1))).map
    (fun c => ⟨uid, c.1⟩)

/-- Input for creating a session-task link (`schemas.SessionTaskCreate`). -/
structure SessionTaskCreate where
  task_id : Nat
  minutes_spent : Int
deriving DecidableEq, Repr

/-- Input for logging a session (`schemas.PracticeSessionCreate`). -/
structure PracticeSessionCreate where
  user_id : Nat
  start_date : Int
  start_hour : Nat
  duration_minutes : Int
  notes : Option String
  focus_rating : Option Int
  progress_rating : Option Int
  energy_rating : Option Int
  tasks : List SessionTaskCreate
deriving DecidableEq, Repr

/-- The task mutation inside the linking loop of
`crud.create_practice_session`: accumulate the practice time and count,
auto-start a not-yet-started task, and recompute its readiness against the
store `st`.  The ORM session is built with `autoflush=False` and the loop
commits only after it finishes, so the freshly added `SessionTask` rows are
still pending here and the readiness query sees only the links that
existed before the create call; `st` accordingly does not hold them. -/
def applySessionTask (st : EngineState) (task : Task) (task_data : SessionTaskCreate) :
    Task :=
  let task := { task with
    total_time_practiced := task.total_time_practiced + task_data.minutes_spent,
    practice_count := task.practice_count + 1 }
  let task := if task.status = TaskStatus.not_started then
    { task with status := TaskStatus.in_progress } else task
  { task with readiness_score := calculate_task_readiness st task }

/-- The per-task body of the linking loop in `crud.create_practice_session`.
The accumulator is the visible store paired with the pending link rows:
`db.add(session_task)` only stages the new link (it is not flushed, as the
session has `autoflush=False`), whereas the task-stat update and the
readiness recompute act on the visible store, which therefore never holds
any of the loop's own links. -/
def createTaskStep (sid : Nat) (acc : EngineState × List SessionTask)
    (task_data : SessionTaskCreate) : EngineState × List SessionTask :=
  let pending := acc.2 ++ [⟨sid, task_data.task_id, task_data.minutes_spent⟩]
  match getTask acc.1 task_data.task_id with
  | none => (acc.1, pending)
  | some task => (setTask acc.1 (applySessionTask acc.1 task task_data), pending)

/-- The `db.commit()` that ends the linking loop: the pending link rows are
flushed into the store. -/
def commitLinks (acc : EngineState × List SessionTask) : EngineState :=
  { acc.1 with session_tasks := acc.1.session_tasks ++ acc.2 }

/-- The session record built by `crud.create_practice_session` before
points are awarded (`points_earned` still at its default 0). -/
def newSessionRecord (st : EngineState) (inp : PracticeSessionCreate) : PSession :=
  { sid := st.next_session_id, user_id := inp.user_id,
    start_date := inp.start_date, start_hour := inp.start_hour,
    duration_minutes := inp.duration_minutes,
    focus_rating := inp.focus_rating,
    progress_rating := inp.progress_rating,
    energy_rating := inp.energy_rating,
    notes := inp.notes, points_earned := 0 }

/-- The points awarded on creation: computed after the streak update
(the updated streak feeds the multiplier). -/
def createPoints (today : Int) (st : EngineState) (inp : PracticeSessionCreate)
    (user : User) : Int :=
  calculate_points (newSessionRecord st inp) (update_streak today user)

/-- The persisted session: the new record with its awarded points. -/
def createdSession (today : Int) (st : EngineState) (inp : PracticeSessionCreate)
    (user : User) : PSession :=
  { newSessionRecord st inp with points_earned := createPoints today st inp user }

/-- The user after the creation flow: streak updated, points added, level
re-resolved. -/
def createdUser (today : Int) (st : EngineState) (inp : PracticeSessionCreate)
    (user : User) : User :=
  update_user_level { update_streak today user with
    total_points := (update_streak today user).total_points + createPoints today st inp user }

/-- The store after the user write and the session insert, before the task
loop and badge evaluation. -/
def createMid (today : Int) (st : EngineState) (inp : PracticeSessionCreate)
    (user : User) : EngineState :=
  { setUser st (createdUser today st inp user) with
    sessions := (setUser st (createdUser today st inp user)).sessions ++
      [createdSession today st inp user],
    next_session_id := st.next_session_id + 1 }

/-- The store after a successful creation: the task loop runs with its
links pending, the commit flushes them, then badges are evaluated against
the updated user and the new session. -/
def createSucc (today : Int) (st : EngineState) (inp : PracticeSessionCreate)
    (user : User) : EngineState :=
  (check_and_award_badges
    (commitLinks (inp.tasks.foldl (createTaskStep st.next_session_id)
      (createMid today st inp user, [])))
    (createdUser today st inp user) (createdSession today st inp user)).1

/-- `crud.create_practice_session`: the central transaction.  Validates the
user, updates the streak, awards points, resolves the level, persists the
session, links and updates each referenced task, and evaluates badges.
Returns the unchanged state and `none` when the user does not exist
(`raise ValueError("User not found")` before any mutation). -/
def create_practice_session (today : Int) (st : EngineState)
    (session : PracticeSessionCreate) : EngineState × Option Nat :=
  match getUser st session.user_id with
  | none => (st, none)
  | some user => (createSucc today st session user, some st.next_session_id)

/-- Rating-update input (`schemas.PracticeSessionUpdate` with pydantic
`exclude_unset`): the outer `Option` is "field present in the request". -/
structure PracticeSessionUpdate where
  focus_rating : Option (Option Int)
  progress_rating : Option (Option Int)
  energy_rating : Option (Option Int)
  notes : Option (Option String)
deriving DecidableEq, Repr

/-- The `setattr` loop of `crud.update_practice_session`: apply the fields
that were present in the request. -/
def applyRatingFields (s : PSession) (upd : PracticeSessionUpdate) : PSession :=
  let s :=
    match upd.focus_rating with
    | some v => { s with focus_rating := v }
    | none => s
  let s :=
    match upd.progress_rating with
    | some v => { s with progress_rating := v }
    | none => s
  let s :=
    match upd.energy_rating with
    | some v => { s with energy_rating := v }
    | none => s
  match upd.notes with
  | some v => { s with notes := v }
  | none => s

/-- The session after a points-recomputing update: provided fields applied
and points recomputed against the user's current streak. -/
def updatedSession (s : PSession) (upd : PracticeSessionUpdate) (user : User) : PSession :=
  { applyRatingFields s upd with
    points_earned := calculate_points (applyRatingFields s upd) user }

/-- The user after a points-recomputing update: the point delta applied and
the level re-resolved. -/
def updatedUser (s : PSession) (upd : PracticeSessionUpdate) (user : User) : User :=
  update_user_level { user with
    total_points := user.total_points +
      (calculate_points (applyRatingFields s upd) user - s.points_earned) }

/-- `crud.update_practice_session`: apply the provided rating fields; when
the focus rating was provided and differs from the stored one, recompute
the session's points against the user's current streak, apply the delta to
the user's points, and re-resolve the level.  Returns `false` when the
session does not exist. -/
def update_practice_session (st : EngineState) (session_id : Nat)
    (session_update : PracticeSessionUpdate) : EngineState × Bool :=
  match findSession st.sessions session_id with
  | none => (st, false)
  | some db_session =>
    let old_focus := db_session.focus_rating
    let focus_changed : Bool :=
      match session_update.focus_rating with
      | some v => v != old_focus
      | none => false
    if focus_changed then
      match getUser st db_session.user_id with
      | none => (st, false)
      | some user =>
        (setUser (setSession st (updatedSession db_session session_update user))
          (updatedUser db_session session_update user), true)
    else (setSession st (applyRatingFields db_session session_update), true)

/-- A task with one link's contribution reversed, floored at zero. -/
def deletedTaskAdj (task : Task) (l : SessionTask) : Task :=
  { task with
    total_time_practiced := max 0 (task.total_time_practiced - l.minutes_spent),
    practice_count := max 0 (task.practice_count - 1) }

/-- The per-link body of the task-stat reversal loop in
`crud.delete_practice_session`. -/
def deleteTaskStep (st : EngineState) (l : SessionTask) : EngineState :=
  match getTask st l.task_id with
  | none => st
  | some task => setTask st (deletedTaskAdj task l)

/-- The user after a session delete: the session's points subtracted
(floored at zero) and the level re-resolved. -/
def deletedUser (user : User) (db_session : PSession) : User :=
  update_user_level
    { user with total_points := max 0 (user.total_points - db_session.points_earned) }

/-- The user write of `crud.delete_practice_session`: subtract the
session's points (floored at zero) and re-resolve the level; skipped when
the user row is missing. -/
def deleteUserAdj (st : EngineState) (db_session : PSession) : EngineState :=
  match getUser st db_session.user_id with
  | none => st
  | some user => setUser st (deletedUser user db_session)

/-- The row deletions of `crud.delete_practice_session`: remove the session
and its links. -/
def deleteRows (st : EngineState) (session_id : Nat) : EngineState :=
  { st with
    sessions := st.sessions.filter (fun s => ¬ s.sid = session_id),
    session_tasks := st.session_tasks.filter (fun l => ¬ l.session_id = session_id) }

/-- `crud.delete_practice_session`: remove the session's points from the
user (floored at zero), re-resolve the level, reverse each linked task's
accumulated time and count (floored at zero), and delete the session and
its links.  Returns `false` when the session does not exist. -/
def delete_practice_session (st : EngineState) (session_id : Nat) :
    EngineState × Bool :=
  match findSession st.sessions session_id with
  | none => (st, false)
  | some db_session =>
    let st := deleteUserAdj st db_session
    let links := st.session_tasks.filter (fun l => l.session_id = session_id)
    let st := links.foldl deleteTaskStep st
    (deleteRows st session_id, true)

/-- `crud.create_user`: gamification stats start at streak 0, 0 points,
level 1, no last practice date. -/
def create_user (st : EngineState) : EngineState × Nat :=
  let u : User :=
    { uid := st.next_user_id, streak_count := 0, total_points := 0,
      level := 1, last_practice_date := none }
  ({ st with users := st.users ++ [u], next_user_id := st.next_user_id + 1 },
   u.uid)

/-- Python `date.weekday()` on a day ordinal: Monday is 0
(ordinal 1 is a Monday). -/
def weekday (d : Int) : Int := (d - 1) % 7

/-- An unranked leaderboard entry: a member with weekly aggregates. -/
structure RawEntry where
  user_id : Nat
  weekly_minutes : Int
  weekly_points : Int
deriving DecidableEq, Repr

/-- A ranked leaderboard entry (`schemas.LeaderboardEntry`). -/
structure LeaderboardEntry where
  rank : Nat
  user_id : Nat
  weekly_minutes : Int
  weekly_points : Int
deriving DecidableEq, Repr

/-- A member's weekly aggregates: sums over their sessions whose calendar
date lies in the Monday-Sunday window. -/
def rawEntry (week_start week_end : Int) (sessions : List PSession) (m : User) :
    RawEntry :=
  let ms := sessions.filter (fun s =>
    s.user_id = m.uid && week_start ≤ s.start_date && s.start_date ≤ week_end)
  { user_id := m.uid,
    weekly_minutes := (ms.map (fun s => s.duration_minutes)).sum,
    weekly_points := (ms.map (fun s => s.points_earned)).sum }

/-- `enumerate` with 1-based ranks, as in the final comprehension of
`crud.get_weekly_leaderboard`. -/
def addRanks (i : Nat) : List RawEntry → List LeaderboardEntry
  | [] => []
  | e :: rest =>
    ⟨i + 1, e.user_id, e.weekly_minutes, e.weekly_points⟩ :: addRanks (i + 1) rest

/-- The Monday of the current week (`today - timedelta(days=today.weekday())`). -/
def lbWeekStart (today : Int) : Int := today - weekday today

/-- The unranked leaderboard rows, one per member in input order. -/
def lbRawEntries (today : Int) (members : List User) (sessions : List PSession) :
    List RawEntry :=
  members.map (rawEntry (lbWeekStart today) (lbWeekStart today + 6) sessions)

/-- A ranked entry's member data. -/
def toRawEntry (e : LeaderboardEntry) : RawEntry :=
  ⟨e.user_id, e.weekly_minutes, e.weekly_points⟩

/-- `crud.get_weekly_leaderboard`: aggregate each member's minutes and
points over the current Monday-Sunday week, sort by weekly minutes
descending (Python `list.sort` is stable), and assign 1-based ranks. -/
def get_weekly_leaderboard (today : Int) (members : List User)
    (sessions : List PSession) : List LeaderboardEntry :=
  let entries := lbRawEntries today members sessions
  let sorted := entries.mergeSort (fun a b => b.weekly_minutes ≤ a.weekly_minutes)
  addRanks 0 sorted

/-- Three ensemble members used to instantiate the leaderboard theorem. -/
def lbMembers : List User := [⟨1, 0, 0, 1, none⟩, ⟨2, 0, 0, 1, none⟩, ⟨3, 0, 0, 1, none⟩]

/-- Two stored sessions: member 2 practiced 45 minutes and member 3
practiced 120 minutes in the week of day 3 (member 1 has none). -/
def lbSessions : List PSession :=
  [⟨10, 2, 2, 10, 45, none, none, none, none, 45⟩,
   ⟨11, 3, 3, 10, 120, none, none, none, none, 120⟩]

/-! ### Specification-side definitions

These follow the wording of the specification, to be compared with the
definitions above that embed the source. -/

/-- The point formula as worded in the spec: `floor(base * multiplier *
(1 + bonus))` in exact arithmetic, with the multiplier tiered on the
updated streak and a 20% bonus for focus ratings of 4 or more. -/
def points_spec (duration : Int) (focus : Option Int) (streak : Int) : Int :=
  let multiplier : ℚ :=
    if streak ≥ 30 then 2
    else if streak ≥ 7 then 3 / 2
    else if streak ≥ 3 then 6 / 5
    else 1
  let bonus : ℚ :=
    match focus with
    | some v => if v ≥ 4 then 1 / 5 else 0
    | none => 0
  ⌊(duration : ℚ) * multiplier * (1 + bonus)⌋

/-- Spec wording: 2 points for each present rating of a session. -/
def specRatingPoints (s : PSession) : Int :=
  (match s.focus_rating with | some f => 2 * f | none => 0) +
  (match s.progress_rating with | some p => 2 * p | none => 0) +
  (match s.energy_rating with | some e => 2 * e | none => 0)

/-- Spec wording: a session is rated when at least one rating is present. -/
def specRated (s : PSession) : Bool :=
  s.focus_rating.isSome || s.progress_rating.isSome || s.energy_rating.isSome

/-- The readiness formula as worded in the spec:
`min(100, (total_time_practiced + R) / (estimated_minutes + 30*N) * 100)`,
and exactly 0 when `estimated_minutes ≤ 0`. -/
def readiness_spec (st : EngineState) (task : Task) : ℚ :=
  if task.estimated_minutes ≤ 0 then 0
  else
    let linked := linkedSessions st task
    let r : Int := (linked.map specRatingPoints).sum
    let n : Nat := (linked.filter specRated).length
    min 100 (((task.total_time_practiced : ℚ) + (r : ℚ)) /
      ((task.estimated_minutes : ℚ) + 30 * (n : ℚ)) * 100)

/-! ### Validated inputs and operation sequences

The service layer (`schemas.py` / `main.py`) hands the engine
already-validated values: durations and per-task minutes are positive and
ratings, when given, lie in 1..5 (spec section 3). -/

/-- An optional rating is valid when absent or in 1..5. -/
def ValidRating : Option Int → Prop
  | none => True
  | some v => 1 ≤ v ∧ v ≤ 5

/-- A valid session-creation input. -/
def ValidCreate (inp : PracticeSessionCreate) : Prop :=
  0 < inp.duration_minutes ∧ ValidRating inp.focus_rating ∧
    ValidRating inp.progress_rating ∧ ValidRating inp.energy_rating ∧
    ∀ td ∈ inp.tasks, 0 < td.minutes_spent

/-- A valid rating-update input. -/
def ValidUpdate (upd : PracticeSessionUpdate) : Prop :=
  (∀ v, upd.focus_rating = some v → ValidRating v) ∧
    (∀ v, upd.progress_rating = some v → ValidRating v) ∧
    (∀ v, upd.energy_rating = some v → ValidRating v)

/-- An engine operation, as dispatched by the service layer. -/
inductive Op where
  | newUser : Op
  | createSession (today : Int) (inp : PracticeSessionCreate) : Op
  | updateSession (sid : Nat) (upd : PracticeSessionUpdate) : Op
  | deleteSession (sid : Nat) : Op

/-- Apply one engine operation to the store. -/
def applyOp (st : EngineState) : Op → EngineState
  | Op.newUser => (create_user st).1
  | Op.createSession today inp => (create_practice_session today st inp).1
  | Op.updateSession sid upd => (update_practice_session st sid upd).1
  | Op.deleteSession sid => (delete_practice_session st sid).1

/-- Validity of one operation's inputs. -/
def ValidOp : Op → Prop
  | Op.newUser => True
  | Op.createSession _ inp => ValidCreate inp
  | Op.updateSession _ upd => ValidUpdate upd
  | Op.deleteSession _ => True

/-- The empty store (fresh database; SQLite ids start at 1). -/
def initState : EngineState := ⟨[], [], [], [], [], 1, 1⟩

/-- Total points earned by a user's stored sessions. -/
def sumPoints (sessions : List PSession) (uid : Nat) : Int :=
  ((sessions.filter (fun s => s.user_id = uid)).map (fun s => s.points_earned)).sum

/-- The state invariant maintained by the engine operations, phrased on the
projections an operation can touch: every user's `total_points` is the sum
of their stored sessions' `points_earned`, levels are at least 1, stored
points and durations are non-negative, and identifiers are unique and
below the allocation counters. -/
def InvCore (users : List User) (sessions : List PSession) (nuid nsid : Nat) : Prop :=
  (∀ u ∈ users, u.total_points = sumPoints sessions u.uid ∧ 1 ≤ u.level ∧ u.uid < nuid) ∧
  (∀ s ∈ sessions, 0 ≤ s.points_earned ∧ 0 ≤ s.duration_minutes ∧
    s.sid < nsid ∧ s.user_id < nuid) ∧
  (users.map User.uid).Nodup ∧
  (sessions.map PSession.sid).Nodup

/-- The state invariant of the engine store. -/
def Inv (st : EngineState) : Prop :=
  InvCore st.users st.sessions st.next_user_id st.next_session_id

/-! ### Concrete stores used to instantiate the theorems -/

/-- A session used in the point-formula example: 40 minutes, focus 5. -/
def exampleSession : PSession := ⟨1, 1, 100, 14, 40, some 5, none, none, none, 0⟩

/-- A user with a 3-day streak (after the streak update). -/
def exampleUser : User := ⟨1, 3, 0, 1, some 100⟩

/-- A one-user store with a stored session and a linked task whose cached
readiness matches its data (focus rating 2). -/
def staleSession : PSession := ⟨1, 1, 100, 10, 10, some 2, none, none, none, 10⟩

/-- The linked task of `staleSession`: 30 estimated minutes, 10 practiced,
cached readiness `(10+4)/(30+30)*100 = 70/3`. -/
def staleTask : Task := ⟨1, 1, 30, 10, 1, 70 / 3, TaskStatus.in_progress⟩

/-- The store holding `staleSession` and `staleTask`. -/
def staleState : EngineState :=
  ⟨[⟨1, 1, 10, 1, some 100⟩], [staleSession], [staleTask], [⟨1, 1, 10⟩], [], 2, 2⟩

/-- A rating update raising the focus rating of the stored session to 5. -/
def raiseFocus : PracticeSessionUpdate := ⟨some (some 5), none, none, none⟩

/-- The store after applying `raiseFocus` to `staleState`. -/
def stalePost : EngineState := (update_practice_session staleState 1 raiseFocus).1

/-- A one-user store with a not-yet-started task, used to instantiate the
session-creation theorems. -/
def witState : EngineState :=
  ⟨[⟨1, 2, 0, 1, some 99⟩], [], [⟨7, 1, 30, 0, 0, 0, TaskStatus.not_started⟩], [], [], 2, 1⟩

/-- A session-creation input for `witState`: 40 minutes, focus 5, one task. -/
def witCreate : PracticeSessionCreate :=
  ⟨1, 100, 14, 40, none, some 5, none, none, [⟨7, 40⟩]⟩

/-- Like `witState`, but the task has no estimated time (readiness 0). -/
def wit0State : EngineState :=
  ⟨[⟨1, 2, 0, 1, some 99⟩], [], [⟨7, 1, 0, 0, 0, 0, TaskStatus.not_started⟩], [], [], 2, 1⟩

/-- A one-user store with an unstarted 60-minute task, no sessions and no
links, used to exhibit the pending-link staleness of the create-time
readiness recompute. -/
def ctxState : EngineState :=
  ⟨[⟨1, 0, 0, 1, none⟩], [], [⟨7, 1, 60, 0, 0, 0, TaskStatus.not_started⟩], [], [], 2, 1⟩

/-- A creation request against `ctxState`: 30 minutes, focus 5, linked to
the 60-minute task. -/
def ctxCreate : PracticeSessionCreate :=
  ⟨1, 100, 10, 30, none, some 5, none, none, [⟨7, 30⟩]⟩

/-- The store right after the creation. -/
def ctxPost : EngineState := (create_practice_session 100 ctxState ctxCreate).1

/-- The stored task right after the creation: the recompute ran while the
new link was still pending, so the stored score is `30/60*100 = 50` even
though the now-stored link and focus rating would give `40/90*100`. -/
def ctxTask : Task := ⟨7, 1, 60, 30, 1, 50, TaskStatus.in_progress⟩

/-! ## Theorems -/

/-! ### Basic lemmas about the store primitives -/

theorem pyInt_eq_floor {x : ℚ} (h : 0 ≤ x) : pyInt x = ⌊x⌋ := by
  unfold pyInt
  rw [if_neg (not_lt.mpr h)]

theorem pyInt_nonneg {x : ℚ} (h : 0 ≤ x) : 0 ≤ pyInt x := by
  rw [pyInt_eq_floor h]
  exact Int.floor_nonneg.mpr h

theorem find?_map_update_self {α κ : Type} [DecidableEq κ] (key : α → κ) (new : α) :
    ∀ (l : List α) (x : α), l.find? (fun v => key v = key new) = some x →
      (l.map (fun v => if key v = key new then new else v)).find?
        (fun v => key v = key new) = some new := by
  intro l
  induction l with
  | nil => intro x h; simp at h
  | cons a t ih =>
    intro x h
    by_cases ha : key a = key new
    · simp [ha]
    · rw [List.find?_cons_of_neg _ (by simp [ha])] at h
      simp only [List.map_cons, if_neg ha]
      rw [List.find?_cons_of_neg _ (by simp [ha])]
      exact ih x h

theorem find?_map_update_other {α κ : Type} [DecidableEq κ] (key : α → κ) (new : α) (k : κ)
    (hk : ¬ k = key new) :
    ∀ l : List α, (l.map (fun v => if key v = key new then new else v)).find?
        (fun v => key v = k) = l.find? (fun v => key v = k) := by
  intro l
  induction l with
  | nil => rfl
  | cons a t ih =>
    by_cases ha : key a = key new
    · have h1 : ¬ key new = k := fun h => hk h.symm
      have h2 : ¬ key a = k := ha ▸ h1
      simp only [List.map_cons, if_pos ha]
      rw [List.find?_cons_of_neg _ (by simp [h1]), List.find?_cons_of_neg _ (by simp [h2])]
      exact ih
    · simp only [List.map_cons, if_neg ha]
      by_cases hak : key a = k
      · rw [List.find?_cons_of_pos _ (by simp [hak]), List.find?_cons_of_pos _ (by simp [hak])]
      · rw [List.find?_cons_of_neg _ (by simp [hak]), List.find?_cons_of_neg _ (by simp [hak])]
        exact ih

theorem map_update_of_find?_none {α κ : Type} [DecidableEq κ] (key : α → κ) (new : α)
    (l : List α) (h : l.find? (fun v => key v = key new) = none) :
    l.map (fun v => if key v = key new then new else v) = l := by
  have hall := List.find?_eq_none.mp h
  calc l.map (fun v => if key v = key new then new else v)
      = l.map id := List.map_congr_left (fun a ha => by
        have := hall a ha
        simp only [decide_eq_true_eq] at this
        simp [this])
    _ = l := List.map_id l

theorem map_key_map_update {α κ : Type} [DecidableEq κ] (key : α → κ) (new : α) (l : List α) :
    (l.map (fun v => if key v = key new then new else v)).map key = l.map key := by
  rw [List.map_map]
  apply List.map_congr_left
  intro a _
  by_cases h : key a = key new
  · simp [Function.comp, if_pos h, h]
  · simp [Function.comp, if_neg h]

theorem getUser_setUser_self (st : EngineState) (u₀ u : User)
    (h : getUser st u.uid = some u₀) : getUser (setUser st u) u.uid = some u :=
  find?_map_update_self User.uid u st.users u₀ h

theorem getUser_setUser_other (st : EngineState) (u : User) (uid : Nat)
    (h : ¬ uid = u.uid) : getUser (setUser st u) uid = getUser st uid :=
  find?_map_update_other User.uid u uid h st.users

theorem getTask_setTask_self (st : EngineState) (t₀ t : Task)
    (h : getTask st t.tid = some t₀) : getTask (setTask st t) t.tid = some t :=
  find?_map_update_self Task.tid t st.tasks t₀ h

theorem getTask_setTask_other (st : EngineState) (t : Task) (tid : Nat)
    (h : ¬ tid = t.tid) : getTask (setTask st t) tid = getTask st tid :=
  find?_map_update_other Task.tid t tid h st.tasks

/-! ### Claim 3: the streak transition rule -/

/-- **C3.** `update_streak` follows the priority rule (absent date starts
the streak at 1; a same-day date leaves it unchanged; yesterday increments
it; any other date resets it to 1), always sets `last_practice_date` to
today, and is idempotent within the same day. -/
theorem claim3_streak_rule (today : Int) (u : User) :
    ((update_streak today u).last_practice_date = some today) ∧
    (u.last_practice_date = none → (update_streak today u).streak_count = 1) ∧
    (u.last_practice_date = some today →
      (update_streak today u).streak_count = u.streak_count) ∧
    (u.last_practice_date = some (today - 1) →
      (update_streak today u).streak_count = u.streak_count + 1) ∧
    (∀ d, u.last_practice_date = some d → d ≠ today → d ≠ today - 1 →
      (update_streak today u).streak_count = 1) ∧
    (update_streak today (update_streak today u) = update_streak today u) := by
  refine ⟨?_, ?_, ?_, ?_, ?_, ?_⟩
  · cases h : u.last_practice_date <;> simp [update_streak, h]
  · intro h; simp [update_streak, h]
  · intro h; simp [update_streak, h]
  · intro h
    by_cases he : today - 1 = today
    · omega
    · simp [update_streak, h, he]
  · intro d h h1 h2
    simp [update_streak, h, h1, h2]
  · cases h : u.last_practice_date with
    | none => simp [update_streak, h]
    | some d =>
      by_cases h1 : d = today <;> by_cases h2 : d = today - 1 <;>
        simp [update_streak, h, h1, h2]

/-- Instantiation of the streak rule: yesterday's practice at streak 2
continues to 3, and re-running the update the same day changes nothing. -/
theorem claim3_witness :
    (update_streak 100 ⟨1, 2, 0, 1, some 99⟩).streak_count = 2 + 1 ∧
    update_streak 100 (update_streak 100 ⟨1, 2, 0, 1, some 99⟩) =
      update_streak 100 ⟨1, 2, 0, 1, some 99⟩ := by
  have h := claim3_streak_rule 100 ⟨1, 2, 0, 1, some 99⟩
  exact ⟨h.2.2.2.1 (by norm_num), h.2.2.2.2.2⟩

/-! ### Claim 5: unknown user fails before any mutation -/

/-- **C5.** `create_practice_session` with an unknown user id fails (returns
no session id) with the store untouched: the user lookup precedes every
mutation, so no streak, point, level, session, link, or badge state has
changed. -/
theorem claim5_user_not_found (today : Int) (st : EngineState)
    (inp : PracticeSessionCreate) (h : getUser st inp.user_id = none) :
    create_practice_session today st inp = (st, none) := by
  unfold create_practice_session
  rw [h]

/-- Instantiation: logging a session against an empty store fails and
leaves the store unchanged. -/
theorem claim5_witness :
    create_practice_session 100 initState ⟨1, 100, 14, 40, none, none, none, none, []⟩ =
      (initState, none) :=
  claim5_user_not_found 100 initState _ rfl

/-! ### Claim 2: the point formula -/

theorem calculate_points_eq_spec (s : PSession) (u : User)
    (hd : 0 < s.duration_minutes) (hf : ValidRating s.focus_rating) :
    calculate_points s u = points_spec s.duration_minutes s.focus_rating u.streak_count := by
  unfold calculate_points points_spec
  have hM : (0:ℚ) < (if u.streak_count ≥ 30 then (2:ℚ)
      else if u.streak_count ≥ 7 then 3 / 2
      else if u.streak_count ≥ 3 then 6 / 5 else 1) := by
    split_ifs <;> norm_num
  cases hfr : s.focus_rating with
  | none =>
    simp only []
    rw [pyInt_eq_floor]
    have hD : (0:ℚ) ≤ (s.duration_minutes : ℚ) := by exact_mod_cast hd.le
    exact mul_nonneg (mul_nonneg hD hM.le) (by norm_num)
  | some v =>
    rw [hfr] at hf
    simp only [ValidRating] at hf
    have hv0 : v ≠ 0 := by omega
    have hD : (0:ℚ) ≤ (s.duration_minutes : ℚ) := by exact_mod_cast hd.le
    by_cases h4 : v ≥ 4
    · simp only [if_pos (And.intro hv0 h4), if_pos h4]
      rw [pyInt_eq_floor]
      exact mul_nonneg (mul_nonneg hD hM.le) (by norm_num)
    · simp only [if_neg (fun hc : v ≠ 0 ∧ v ≥ 4 => h4 hc.2), if_neg h4]
      rw [pyInt_eq_floor]
      rw [add_zero, mul_one]
      exact mul_nonneg hD hM.le

/-- **C2.** `calculate_points` computes exactly
`floor(duration * multiplier * (1 + bonus))` in exact arithmetic, with the
multiplier tiered at streaks 30/7/3 as 2.0/1.5/1.2 and a 0.2 bonus for a
focus rating of at least 4; in particular a 40-minute session with focus 5
at streak 3 yields 57 points. -/
theorem claim2_point_formula :
    (∀ (s : PSession) (u : User), 0 < s.duration_minutes →
      ValidRating s.focus_rating → 0 ≤ u.streak_count →
      calculate_points s u =
        points_spec s.duration_minutes s.focus_rating u.streak_count) ∧
    calculate_points exampleSession exampleUser = 57 := by
  constructor
  · intro s u hd hf _
    exact calculate_points_eq_spec s u hd hf
  · norm_num [calculate_points, exampleSession, exampleUser, pyInt]

/-- Instantiation of the point formula at the spec's worked example. -/
theorem claim2_witness :
    calculate_points exampleSession exampleUser =
      points_spec exampleSession.duration_minutes exampleSession.focus_rating
        exampleUser.streak_count ∧
    points_spec exampleSession.duration_minutes exampleSession.focus_rating
      exampleUser.streak_count = 57 := by
  constructor
  · exact claim2_point_formula.1 exampleSession exampleUser (by decide)
      (by simp [ValidRating, exampleSession]) (by decide)
  · norm_num [points_spec, exampleSession, exampleUser]

/-! ### Claim 4: the readiness score -/

theorem mem_linkedSessions {st : EngineState} {task : Task} {s : PSession}
    (h : s ∈ linkedSessions st task) : s ∈ st.sessions := by
  unfold linkedSessions at h
  obtain ⟨l, _, hl⟩ := List.mem_filterMap.mp h
  exact List.mem_of_find?_eq_some hl

theorem sessionRatingPoints_nonneg (s : PSession)
    (h : ValidRating s.focus_rating ∧ ValidRating s.progress_rating ∧
      ValidRating s.energy_rating) : 0 ≤ sessionRatingPoints s := by
  obtain ⟨h1, h2, h3⟩ := h
  unfold sessionRatingPoints
  cases hf : s.focus_rating <;> cases hp : s.progress_rating <;>
    cases he : s.energy_rating <;> rw [hf] at h1 <;> rw [hp] at h2 <;>
    rw [he] at h3 <;> simp only [ValidRating] at h1 h2 h3 <;>
    simp only [] <;> (try split_ifs) <;> omega

theorem sessionRatingPoints_eq_spec (s : PSession)
    (h : ValidRating s.focus_rating ∧ ValidRating s.progress_rating ∧
      ValidRating s.energy_rating) : sessionRatingPoints s = specRatingPoints s := by
  obtain ⟨h1, h2, h3⟩ := h
  unfold sessionRatingPoints specRatingPoints
  cases hf : s.focus_rating <;> cases hp : s.progress_rating <;>
    cases he : s.energy_rating <;> rw [hf] at h1 <;> rw [hp] at h2 <;>
    rw [he] at h3 <;> simp only [ValidRating] at h1 h2 h3 <;>
    simp only [] <;> (try split_ifs) <;> omega

theorem sessionHasRating_eq_specRated (s : PSession)
    (h : ValidRating s.focus_rating ∧ ValidRating s.progress_rating ∧
      ValidRating s.energy_rating) : sessionHasRating s = specRated s := by
  obtain ⟨h1, h2, h3⟩ := h
  unfold sessionHasRating specRated ratingTruthy
  cases hf : s.focus_rating <;> cases hp : s.progress_rating <;>
    cases he : s.energy_rating <;> rw [hf] at h1 <;> rw [hp] at h2 <;>
    rw [he] at h3 <;> simp only [ValidRating] at h1 h2 h3 <;>
    simp only [Option.isSome] <;> congr 1 <;> simp <;> omega

/-- **C4.** `calculate_task_readiness` is clamped to `[0, 100]`, returns
exactly 0 when `estimated_minutes ≤ 0`, and otherwise returns
`min(100, (total_time_practiced + R) / (estimated_minutes + 30*N) * 100)`
with `R` the rating points and `N` the rated-session count of the task's
links, under the data-model assumptions (non-negative accumulated time,
ratings in 1..5 when present). -/
theorem claim4_readiness_clamped (st : EngineState) (task : Task)
    (hT : 0 ≤ task.total_time_practiced)
    (hR : ∀ s ∈ st.sessions, ValidRating s.focus_rating ∧
      ValidRating s.progress_rating ∧ ValidRating s.energy_rating) :
    (0 ≤ calculate_task_readiness st task ∧ calculate_task_readiness st task ≤ 100) ∧
    (task.estimated_minutes ≤ 0 → calculate_task_readiness st task = 0) ∧
    calculate_task_readiness st task = readiness_spec st task := by
  have hlink : ∀ s ∈ linkedSessions st task, ValidRating s.focus_rating ∧
      ValidRating s.progress_rating ∧ ValidRating s.energy_rating :=
    fun s hs => hR s (mem_linkedSessions hs)
  have heq : calculate_task_readiness st task = readiness_spec st task := by
    unfold calculate_task_readiness readiness_spec
    by_cases hest : task.estimated_minutes ≤ 0
    · rw [if_pos hest, if_pos hest]
    · rw [if_neg hest, if_neg hest]
      simp only []
      have hRpts : (linkedSessions st task).map sessionRatingPoints =
          (linkedSessions st task).map specRatingPoints :=
        List.map_congr_left (fun s hs => sessionRatingPoints_eq_spec s (hlink s hs))
      have hRated : (linkedSessions st task).filter sessionHasRating =
          (linkedSessions st task).filter specRated :=
        List.filter_congr (fun s hs => sessionHasRating_eq_specRated s (hlink s hs))
      rw [hRpts, hRated]
      have hpos : (0:ℚ) < (task.estimated_minutes : ℚ) +
          (((linkedSessions st task).filter specRated).length : ℚ) * 30 := by
        have h0 : (0:ℤ) < task.estimated_minutes := by omega
        have h1 : (0:ℚ) < (task.estimated_minutes : ℚ) := by exact_mod_cast h0
        have h2 : (0:ℚ) ≤ (((linkedSessions st task).filter specRated).length : ℚ) * 30 := by
          positivity
        linarith
      rw [if_neg (not_le.mpr hpos)]
      rw [min_comm]
      ring_nf
  refine ⟨?_, fun hest => by rw [heq]; unfold readiness_spec; rw [if_pos hest], heq⟩
  rw [heq]
  unfold readiness_spec
  by_cases hest : task.estimated_minutes ≤ 0
  · rw [if_pos hest]
    norm_num
  · rw [if_neg hest]
    simp only []
    constructor
    · apply le_min (by norm_num)
      apply mul_nonneg _ (by norm_num)
      apply div_nonneg
      · have hRp : (0:ℤ) ≤ ((linkedSessions st task).map specRatingPoints).sum := by
          apply List.sum_nonneg
          intro x hx
          obtain ⟨s, hs, hxs⟩ := List.mem_map.mp hx
          rw [← hxs, ← sessionRatingPoints_eq_spec s (hlink s hs)]
          exact sessionRatingPoints_nonneg s (hlink s hs)
        exact_mod_cast add_nonneg hT hRp
      · have h0 : (0:ℤ) < task.estimated_minutes := by omega
        have h1 : (0:ℚ) < (task.estimated_minutes : ℚ) := by exact_mod_cast h0
        positivity
    · exact min_le_left _ _

/-- Instantiation of the readiness theorem at a concrete store: one linked
session with focus 2, 10 of 30 minutes practiced. -/
theorem claim4_witness :
    (0 ≤ calculate_task_readiness staleState staleTask ∧
      calculate_task_readiness staleState staleTask ≤ 100) ∧
    calculate_task_readiness staleState staleTask = readiness_spec staleState staleTask := by
  have h := claim4_readiness_clamped staleState staleTask (by decide)
    (by intro s hs
        simp only [staleState, List.mem_singleton] at hs
        subst hs
        exact ⟨by simp [staleSession, ValidRating], by simp [staleSession, ValidRating],
          by simp [staleSession, ValidRating]⟩)
  exact ⟨h.1, h.2.2⟩

/-! ### Projection and congruence lemmas for the composite operations -/

theorem foldl_proj_eq {α β γ : Type} (proj : α → γ)
    (f : α → β → α) (h : ∀ a x, proj (f a x) = proj a) :
    ∀ (l : List β) (a : α), proj (l.foldl f a) = proj a := by
  intro l
  induction l with
  | nil => intro a; rfl
  | cons x t ih =>
    intro a
    rw [List.foldl_cons, ih, h]

theorem getTask_congr {st₁ st₂ : EngineState} (h : st₁.tasks = st₂.tasks) (tid : Nat) :
    getTask st₁ tid = getTask st₂ tid := by
  unfold getTask
  rw [h]

theorem calculate_task_readiness_congr_task {st : EngineState} {t₁ t₂ : Task}
    (h1 : t₁.tid = t₂.tid) (h2 : t₁.estimated_minutes = t₂.estimated_minutes)
    (h3 : t₁.total_time_practiced = t₂.total_time_practiced) :
    calculate_task_readiness st t₁ = calculate_task_readiness st t₂ := by
  unfold calculate_task_readiness linkedSessions
  rw [h1, h2, h3]

theorem calculate_task_readiness_congr_state {st₁ st₂ : EngineState} {t : Task}
    (h1 : st₁.sessions = st₂.sessions)
    (h2 : st₁.session_tasks.filter (fun l => l.task_id = t.tid) =
      st₂.session_tasks.filter (fun l => l.task_id = t.tid)) :
    calculate_task_readiness st₁ t = calculate_task_readiness st₂ t := by
  unfold calculate_task_readiness linkedSessions
  rw [h1, h2]

theorem applySessionTask_tid (st : EngineState) (task : Task) (td : SessionTaskCreate) :
    (applySessionTask st task td).tid = task.tid := by
  unfold applySessionTask
  try dsimp only []
  split <;> rfl

theorem applySessionTask_readiness (st : EngineState) (task : Task)
    (td : SessionTaskCreate) :
    (applySessionTask st task td).readiness_score =
      calculate_task_readiness st (applySessionTask st task td) := by
  unfold applySessionTask
  try dsimp only []
  exact calculate_task_readiness_congr_task rfl rfl rfl

theorem createTaskStep_found (sid : Nat) (acc : EngineState × List SessionTask)
    (td : SessionTaskCreate) (task : Task) (h : getTask acc.1 td.task_id = some task) :
    createTaskStep sid acc td =
      (setTask acc.1 (applySessionTask acc.1 task td),
        acc.2 ++ [⟨sid, td.task_id, td.minutes_spent⟩]) := by
  unfold createTaskStep
  try dsimp only []
  rw [h]

theorem createTaskStep_notfound (sid : Nat) (acc : EngineState × List SessionTask)
    (td : SessionTaskCreate) (h : getTask acc.1 td.task_id = none) :
    createTaskStep sid acc td = (acc.1, acc.2 ++ [⟨sid, td.task_id, td.minutes_spent⟩]) := by
  unfold createTaskStep
  try dsimp only []
  rw [h]

theorem createTaskStep_users (sid : Nat) (acc : EngineState × List SessionTask)
    (td : SessionTaskCreate) : (createTaskStep sid acc td).1.users = acc.1.users := by
  unfold createTaskStep
  try dsimp only []
  split <;> rfl

theorem createTaskStep_sessions (sid : Nat) (acc : EngineState × List SessionTask)
    (td : SessionTaskCreate) : (createTaskStep sid acc td).1.sessions = acc.1.sessions := by
  unfold createTaskStep
  try dsimp only []
  split <;> rfl

theorem createTaskStep_links (sid : Nat) (acc : EngineState × List SessionTask)
    (td : SessionTaskCreate) :
    (createTaskStep sid acc td).1.session_tasks = acc.1.session_tasks := by
  unfold createTaskStep
  try dsimp only []
  split <;> rfl

theorem createTaskStep_next_user (sid : Nat) (acc : EngineState × List SessionTask)
    (td : SessionTaskCreate) :
    (createTaskStep sid acc td).1.next_user_id = acc.1.next_user_id := by
  unfold createTaskStep
  try dsimp only []
  split <;> rfl

theorem createTaskStep_next_session (sid : Nat) (acc : EngineState × List SessionTask)
    (td : SessionTaskCreate) :
    (createTaskStep sid acc td).1.next_session_id = acc.1.next_session_id := by
  unfold createTaskStep
  try dsimp only []
  split <;> rfl

theorem createTaskStep_badges (sid : Nat) (acc : EngineState × List SessionTask)
    (td : SessionTaskCreate) : (createTaskStep sid acc td).1.badges = acc.1.badges := by
  unfold createTaskStep
  try dsimp only []
  split <;> rfl

theorem deleteTaskStep_users (st : EngineState) (l : SessionTask) :
    (deleteTaskStep st l).users = st.users := by
  unfold deleteTaskStep
  try dsimp only []
  split <;> rfl

theorem deleteTaskStep_sessions (st : EngineState) (l : SessionTask) :
    (deleteTaskStep st l).sessions = st.sessions := by
  unfold deleteTaskStep
  try dsimp only []
  split <;> rfl

theorem deleteTaskStep_links (st : EngineState) (l : SessionTask) :
    (deleteTaskStep st l).session_tasks = st.session_tasks := by
  unfold deleteTaskStep
  try dsimp only []
  split <;> rfl

theorem deleteTaskStep_next_user (st : EngineState) (l : SessionTask) :
    (deleteTaskStep st l).next_user_id = st.next_user_id := by
  unfold deleteTaskStep
  try dsimp only []
  split <;> rfl

theorem deleteTaskStep_next_session (st : EngineState) (l : SessionTask) :
    (deleteTaskStep st l).next_session_id = st.next_session_id := by
  unfold deleteTaskStep
  try dsimp only []
  split <;> rfl

theorem deleteUserAdj_tasks (st : EngineState) (s : PSession) :
    (deleteUserAdj st s).tasks = st.tasks := by
  unfold deleteUserAdj
  try dsimp only []
  split <;> rfl

theorem deleteUserAdj_sessions (st : EngineState) (s : PSession) :
    (deleteUserAdj st s).sessions = st.sessions := by
  unfold deleteUserAdj
  try dsimp only []
  split <;> rfl

theorem deleteUserAdj_links (st : EngineState) (s : PSession) :
    (deleteUserAdj st s).session_tasks = st.session_tasks := by
  unfold deleteUserAdj
  try dsimp only []
  split <;> rfl

theorem deleteUserAdj_badges (st : EngineState) (s : PSession) :
    (deleteUserAdj st s).badges = st.badges := by
  unfold deleteUserAdj
  try dsimp only []
  split <;> rfl

/-! ### The task loop of session creation recomputes readiness over the
pre-existing links (its own links are pending until the commit) -/

theorem getTask_createTaskStep_other (sid : Nat) (acc : EngineState × List SessionTask)
    (td : SessionTaskCreate) (tid : Nat) (h : ¬ tid = td.task_id) :
    getTask (createTaskStep sid acc td).1 tid = getTask acc.1 tid := by
  cases hfind : getTask acc.1 td.task_id with
  | none =>
    rw [createTaskStep_notfound sid acc td hfind]
  | some task =>
    rw [createTaskStep_found sid acc td task hfind]
    have htid : task.tid = td.task_id := by
      simpa using List.find?_some hfind
    have hne : ¬ tid = (applySessionTask acc.1 task td).tid := by
      rw [applySessionTask_tid, htid]
      exact h
    exact getTask_setTask_other _ _ _ hne

theorem calc_createTaskStep (sid : Nat) (acc : EngineState × List SessionTask)
    (td : SessionTaskCreate) (t : Task) :
    calculate_task_readiness (createTaskStep sid acc td).1 t =
      calculate_task_readiness acc.1 t := by
  cases hfind : getTask acc.1 td.task_id with
  | none =>
    rw [createTaskStep_notfound sid acc td hfind]
  | some task =>
    rw [createTaskStep_found sid acc td task hfind]
    exact calculate_task_readiness_congr_state rfl rfl

theorem createLoop_getTask_other (sid : Nat) :
    ∀ (tds : List SessionTaskCreate) (acc : EngineState × List SessionTask) (tid : Nat),
      (∀ td ∈ tds, ¬ tid = td.task_id) →
      getTask (tds.foldl (createTaskStep sid) acc).1 tid = getTask acc.1 tid := by
  intro tds
  induction tds with
  | nil => intro acc tid _; rfl
  | cons a t ih =>
    intro acc tid h
    rw [List.foldl_cons, ih _ tid (fun td htd => h td (List.mem_cons_of_mem a htd)),
      getTask_createTaskStep_other sid acc a tid (h a (List.mem_cons_self a t))]

theorem createLoop_calc (sid : Nat) :
    ∀ (tds : List SessionTaskCreate) (acc : EngineState × List SessionTask) (t : Task),
      calculate_task_readiness (tds.foldl (createTaskStep sid) acc).1 t =
        calculate_task_readiness acc.1 t := by
  intro tds
  induction tds with
  | nil => intro acc t; rfl
  | cons a rest ih =>
    intro acc t
    rw [List.foldl_cons, ih _ t, calc_createTaskStep sid acc a t]

theorem createLoop_readiness (sid : Nat) :
    ∀ (tds : List SessionTaskCreate) (acc : EngineState × List SessionTask),
      (tds.map (fun td => td.task_id)).Nodup →
      ∀ td ∈ tds, (getTask acc.1 td.task_id).isSome →
        ∀ t', getTask (tds.foldl (createTaskStep sid) acc).1 td.task_id = some t' →
          t'.readiness_score = calculate_task_readiness acc.1 t' := by
  intro tds
  induction tds with
  | nil =>
    intro acc _ td htd
    exact absurd htd (List.not_mem_nil td)
  | cons a rest ih =>
    intro acc hnd td htd hsome t' hget
    rw [List.map_cons, List.nodup_cons] at hnd
    obtain ⟨hna, hndr⟩ := hnd
    rw [List.foldl_cons] at hget
    rcases List.mem_cons.mp htd with heq | hmem
    · subst heq
      obtain ⟨task, htask⟩ := Option.isSome_iff_exists.mp hsome
      rw [createTaskStep_found sid acc td task htask] at hget
      set τ := applySessionTask acc.1 task td with hτ
      have htid : task.tid = td.task_id := by
        simpa using List.find?_some htask
      have hτtid : τ.tid = td.task_id := by
        rw [hτ, applySessionTask_tid, htid]
      have hother : ∀ x ∈ rest, ¬ td.task_id = x.task_id := by
        intro x hx heq2
        exact hna (heq2 ▸ List.mem_map_of_mem (fun y => y.task_id) hx)
      have hself : getTask (setTask acc.1 τ) td.task_id = some τ := by
        rw [← hτtid]
        apply getTask_setTask_self
        rw [hτtid]
        exact htask
      have hfinal : getTask (rest.foldl (createTaskStep sid)
          (setTask acc.1 τ, acc.2 ++ [⟨sid, td.task_id, td.minutes_spent⟩])).1
          td.task_id = some τ := by
        rw [createLoop_getTask_other sid rest _ td.task_id hother]
        exact hself
      rw [hget] at hfinal
      have ht' : t' = τ := Option.some_inj.mp hfinal
      subst ht'
      exact applySessionTask_readiness acc.1 task td
    · have hne : ¬ td.task_id = a.task_id := by
        intro heq2
        exact hna (heq2 ▸ List.mem_map_of_mem (fun y => y.task_id) hmem)
      have hsome' : (getTask (createTaskStep sid acc a).1 td.task_id).isSome := by
        rw [getTask_createTaskStep_other sid acc a td.task_id hne]
        exact hsome
      have h1 := ih (createTaskStep sid acc a) hndr td hmem hsome' t' hget
      rw [h1, calc_createTaskStep sid acc a t']

/-! ### Updates and deletes do not touch stored readiness -/

theorem update_tasks_eq (st : EngineState) (sid : Nat) (upd : PracticeSessionUpdate) :
    (update_practice_session st sid upd).1.tasks = st.tasks := by
  unfold update_practice_session
  try dsimp only []
  split
  · rfl
  · split
    · split
      · rfl
      · rfl
    · rfl

theorem deleteTaskStep_readiness_map (st : EngineState) (l : SessionTask) (tid : Nat) :
    (getTask (deleteTaskStep st l) tid).map (fun t => t.readiness_score) =
      (getTask st tid).map (fun t => t.readiness_score) := by
  unfold deleteTaskStep
  try dsimp only []
  cases hfind : getTask st l.task_id with
  | none => rfl
  | some task =>
    try dsimp only []
    have htid : task.tid = l.task_id := by
      simpa using List.find?_some hfind
    by_cases h : tid = task.tid
    · subst h
      have hst : getTask st task.tid = some task := by
        rw [htid]
        exact hfind
      have h1 : getTask (setTask st (deletedTaskAdj task l)) task.tid =
          some (deletedTaskAdj task l) :=
        getTask_setTask_self st task (deletedTaskAdj task l) hst
      rw [h1, hst]
      rfl
    · have hne : ¬ tid = (deletedTaskAdj task l).tid := h
      rw [getTask_setTask_other st (deletedTaskAdj task l) tid hne]

theorem deleteLoop_readiness_map :
    ∀ (links : List SessionTask) (st : EngineState) (tid : Nat),
      (getTask (links.foldl deleteTaskStep st) tid).map (fun t => t.readiness_score) =
        (getTask st tid).map (fun t => t.readiness_score) := by
  intro links
  induction links with
  | nil => intro st tid; rfl
  | cons a t ih =>
    intro st tid
    rw [List.foldl_cons, ih, deleteTaskStep_readiness_map]

theorem getTask_deleteRows (st : EngineState) (sid tid : Nat) :
    getTask (deleteRows st sid) tid = getTask st tid := rfl

theorem delete_readiness_map (st : EngineState) (sid tid : Nat) :
    (getTask (delete_practice_session st sid).1 tid).map (fun t => t.readiness_score) =
      (getTask st tid).map (fun t => t.readiness_score) := by
  unfold delete_practice_session
  try dsimp only []
  split
  · rfl
  · try dsimp only []
    rw [getTask_deleteRows, deleteLoop_readiness_map,
      getTask_congr (deleteUserAdj_tasks st _) tid]

/-! ### Claim 9: when stored readiness is recomputed -/

theorem calc_readiness_nil_links (st : EngineState) (t : Task)
    (h : st.session_tasks.filter (fun l => l.task_id = t.tid) = [])
    (hE : 0 < t.estimated_minutes) :
    calculate_task_readiness st t =
      min ((t.total_time_practiced : ℚ) / (t.estimated_minutes : ℚ) * 100) 100 := by
  unfold calculate_task_readiness linkedSessions
  rw [h]
  try dsimp only []
  rw [if_neg (by omega : ¬ t.estimated_minutes ≤ 0)]
  simp only [List.filterMap_nil, List.map_nil, List.sum_nil, List.filter_nil,
    List.length_nil, Nat.cast_zero, Int.cast_zero, zero_mul, add_zero]
  rw [if_neg (show ¬ ((t.estimated_minutes : ℚ) ≤ 0) by
    have h0 : (0 : ℚ) < (t.estimated_minutes : ℚ) := by exact_mod_cast hE
    linarith)]

/-- **C9 (counterexample).** Two staleness witnesses.  First, raising a
stored session's focus rating via `update_practice_session` does not
recompute the linked task's stored `readiness_score`: afterwards the
stored score (70/3) differs from the score recomputed from the updated
session data (100/3).  Second, the score `create_practice_session` stores
is computed while the new session-task rows are still pending (the session
has `autoflush=False` and commits the links only after the loop), so right
after a creation the stored score (50) already differs from a fresh
recomputation over the stored data (400/9). -/
theorem claim9_counterexample :
    (getTask stalePost 1 = some staleTask ∧
      staleTask.readiness_score ≠ calculate_task_readiness stalePost staleTask) ∧
    (getTask ctxPost 7 = some ctxTask ∧
      ctxTask.readiness_score ≠ calculate_task_readiness ctxPost ctxTask) := by
  have htasks : stalePost.tasks = staleState.tasks := update_tasks_eq staleState 1 raiseFocus
  refine ⟨⟨?_, ?_⟩, ?_⟩
  · rw [getTask_congr htasks 1]
    rfl
  · have hpost : stalePost = setUser
        (setSession staleState (updatedSession staleSession raiseFocus ⟨1, 1, 10, 1, some 100⟩))
        (updatedUser staleSession raiseFocus ⟨1, 1, 10, 1, some 100⟩) := by
      unfold stalePost update_practice_session
      rfl
    rw [hpost]
    simp [calculate_task_readiness, linkedSessions, staleTask, staleState,
      setUser, setSession, updatedSession, applyRatingFields, raiseFocus, staleSession,
      findSession, sessionRatingPoints, sessionHasRating, ratingTruthy]
    norm_num
  · have hfind : getTask (createMid 100 ctxState ctxCreate ⟨1, 0, 0, 1, none⟩) 7 =
        some ⟨7, 1, 60, 0, 0, 0, TaskStatus.not_started⟩ := rfl
    have hcalcmid : ∀ t : Task, t.estimated_minutes = 60 → t.total_time_practiced = 30 →
        calculate_task_readiness (createMid 100 ctxState ctxCreate ⟨1, 0, 0, 1, none⟩) t =
          50 := by
      intro t h1 h2
      rw [calc_readiness_nil_links (createMid 100 ctxState ctxCreate ⟨1, 0, 0, 1, none⟩) t
        rfl (by omega), h1, h2]
      norm_num [min_def]
    have htau : applySessionTask (createMid 100 ctxState ctxCreate ⟨1, 0, 0, 1, none⟩)
        ⟨7, 1, 60, 0, 0, 0, TaskStatus.not_started⟩ ⟨7, 30⟩ = ctxTask := by
      unfold applySessionTask
      try dsimp only []
      rw [if_pos rfl]
      try dsimp only []
      rw [hcalcmid ⟨7, 1, 60, 0 + 30, 0 + 1, 0, TaskStatus.in_progress⟩ rfl rfl]
      unfold ctxTask
      norm_num
    have hF : ctxCreate.tasks.foldl (createTaskStep 1)
        (createMid 100 ctxState ctxCreate ⟨1, 0, 0, 1, none⟩, []) =
        (setTask (createMid 100 ctxState ctxCreate ⟨1, 0, 0, 1, none⟩) ctxTask,
          [⟨1, 7, 30⟩]) := by
      show createTaskStep 1 (createMid 100 ctxState ctxCreate ⟨1, 0, 0, 1, none⟩, [])
        ⟨7, 30⟩ = _
      rw [createTaskStep_found 1 _ ⟨7, 30⟩ ⟨7, 1, 60, 0, 0, 0, TaskStatus.not_started⟩ hfind,
        htau]
      rfl
    have hpostc : ctxPost = createSucc 100 ctxState ctxCreate ⟨1, 0, 0, 1, none⟩ := rfl
    have hget : getTask ctxPost 7 = some ctxTask := by
      rw [hpostc]
      unfold createSucc
      rw [show ctxState.next_session_id = 1 from rfl, hF]
      rw [getTask_congr (rfl : ((check_and_award_badges
          (commitLinks (setTask (createMid 100 ctxState ctxCreate ⟨1, 0, 0, 1, none⟩) ctxTask,
            [⟨1, 7, 30⟩]))
          (createdUser 100 ctxState ctxCreate ⟨1, 0, 0, 1, none⟩)
          (createdSession 100 ctxState ctxCreate ⟨1, 0, 0, 1, none⟩)).1).tasks =
        (setTask (createMid 100 ctxState ctxCreate ⟨1, 0, 0, 1, none⟩) ctxTask).tasks) 7]
      exact getTask_setTask_self _ ⟨7, 1, 60, 0, 0, 0, TaskStatus.not_started⟩ ctxTask hfind
    refine ⟨hget, ?_⟩
    have hsess : ctxPost.sessions =
        [createdSession 100 ctxState ctxCreate ⟨1, 0, 0, 1, none⟩] := by
      rw [hpostc]
      unfold createSucc
      rw [show ctxState.next_session_id = 1 from rfl, hF]
      rfl
    have hlinks : ctxPost.session_tasks = [⟨1, 7, 30⟩] := by
      rw [hpostc]
      unfold createSucc
      rw [show ctxState.next_session_id = 1 from rfl, hF]
      rfl
    have hcongr : calculate_task_readiness ctxPost ctxTask =
        calculate_task_readiness
          ⟨[], [createdSession 100 ctxState ctxCreate ⟨1, 0, 0, 1, none⟩], [],
            [⟨1, 7, 30⟩], [], 2, 2⟩ ctxTask :=
      calculate_task_readiness_congr_state hsess (by rw [hlinks])
    rw [hcongr]
    have hfoc : (createdSession 100 ctxState ctxCreate ⟨1, 0, 0, 1, none⟩).focus_rating =
        some 5 := rfl
    have hprog : (createdSession 100 ctxState ctxCreate ⟨1, 0, 0, 1, none⟩).progress_rating =
        none := rfl
    have hen : (createdSession 100 ctxState ctxCreate ⟨1, 0, 0, 1, none⟩).energy_rating =
        none := rfl
    have hsid : (createdSession 100 ctxState ctxCreate ⟨1, 0, 0, 1, none⟩).sid = 1 := rfl
    unfold calculate_task_readiness linkedSessions
    simp [ctxTask, findSession, hsid, hfoc, hprog, hen,
      sessionRatingPoints, sessionHasRating, ratingTruthy]
    norm_num

/-- **C9 (amended).** Among the session operations, stored
`readiness_score` is written back only by session creation, and the value
stored there for each linked task is computed from the links that existed
before the creation: the new session-task rows are still pending when the
recompute runs (the ORM session has `autoflush=False` and commits them
only after the loop), so the stored score equals `calculate_task_readiness`
over the original link set (together with the already-committed new
session row).  Rating updates and deletions leave every task's stored
score untouched; stale scores are refreshed only by a later recomputation
such as the task listing. -/
theorem claim9_readiness_recompute :
    (∀ (today : Int) (st : EngineState) (inp : PracticeSessionCreate) (user : User),
      getUser st inp.user_id = some user →
      (inp.tasks.map (fun td => td.task_id)).Nodup →
      ∀ td ∈ inp.tasks, (getTask st td.task_id).isSome →
        ∀ t', getTask (create_practice_session today st inp).1 td.task_id = some t' →
          t'.readiness_score =
            calculate_task_readiness
              { st with sessions := st.sessions ++ [createdSession today st inp user] }
              t') ∧
    (∀ (st : EngineState) (sid : Nat) (upd : PracticeSessionUpdate),
      (update_practice_session st sid upd).1.tasks = st.tasks) ∧
    (∀ (st : EngineState) (sid tid : Nat),
      (getTask (delete_practice_session st sid).1 tid).map (fun t => t.readiness_score) =
        (getTask st tid).map (fun t => t.readiness_score)) := by
  refine ⟨?_, update_tasks_eq, delete_readiness_map⟩
  intro today st inp user huser hnd td htd hsome t' hget
  unfold create_practice_session at hget
  rw [huser] at hget
  simp only [] at hget
  unfold createSucc at hget
  have hbt : ((check_and_award_badges
      (commitLinks (inp.tasks.foldl (createTaskStep st.next_session_id)
        (createMid today st inp user, [])))
      (createdUser today st inp user) (createdSession today st inp user)).1).tasks =
      ((inp.tasks.foldl (createTaskStep st.next_session_id)
        (createMid today st inp user, [])).1).tasks :=
    rfl
  rw [getTask_congr hbt td.task_id] at hget
  have hsome' : (getTask ((createMid today st inp user,
      ([] : List SessionTask)).1) td.task_id).isSome := by
    rw [getTask_congr (rfl : ((createMid today st inp user,
      ([] : List SessionTask)).1).tasks = st.tasks) td.task_id]
    exact hsome
  have h1 := createLoop_readiness st.next_session_id inp.tasks
    (createMid today st inp user, []) hnd td htd hsome' t' hget
  rw [h1]
  exact calculate_task_readiness_congr_state rfl rfl

/-! ### Characterizations of the user-facing operations -/

theorem getUser_congr {st₁ st₂ : EngineState} (h : st₁.users = st₂.users) (uid : Nat) :
    getUser st₁ uid = getUser st₂ uid := by
  unfold getUser
  rw [h]

theorem update_streak_uid (today : Int) (u : User) :
    (update_streak today u).uid = u.uid := by
  unfold update_streak
  try dsimp only []
  cases h : u.last_practice_date
  · rfl
  · try dsimp only []
    split_ifs <;> rfl

theorem update_streak_total (today : Int) (u : User) :
    (update_streak today u).total_points = u.total_points := by
  unfold update_streak
  try dsimp only []
  cases h : u.last_practice_date
  · rfl
  · try dsimp only []
    split_ifs <;> rfl

theorem update_user_level_inv (u : User) :
    (update_user_level u).level = Int.fdiv (update_user_level u).total_points 100 + 1 := rfl

theorem createdUser_uid (today : Int) (st : EngineState) (inp : PracticeSessionCreate)
    (user : User) : (createdUser today st inp user).uid = user.uid :=
  update_streak_uid today user

theorem createSucc_users (today : Int) (st : EngineState) (inp : PracticeSessionCreate)
    (user : User) :
    (createSucc today st inp user).users = (setUser st (createdUser today st inp user)).users := by
  unfold createSucc
  exact (foldl_proj_eq (fun a : EngineState × List SessionTask => a.1.users)
    (createTaskStep st.next_session_id) (createTaskStep_users st.next_session_id)
    inp.tasks (createMid today st inp user, [])).trans rfl

theorem createSucc_sessions (today : Int) (st : EngineState) (inp : PracticeSessionCreate)
    (user : User) :
    (createSucc today st inp user).sessions =
      st.sessions ++ [createdSession today st inp user] := by
  unfold createSucc
  exact (foldl_proj_eq (fun a : EngineState × List SessionTask => a.1.sessions)
    (createTaskStep st.next_session_id) (createTaskStep_sessions st.next_session_id)
    inp.tasks (createMid today st inp user, [])).trans rfl

theorem createSucc_next_user (today : Int) (st : EngineState) (inp : PracticeSessionCreate)
    (user : User) :
    (createSucc today st inp user).next_user_id = st.next_user_id := by
  unfold createSucc
  exact (foldl_proj_eq (fun a : EngineState × List SessionTask => a.1.next_user_id)
    (createTaskStep st.next_session_id) (createTaskStep_next_user st.next_session_id)
    inp.tasks (createMid today st inp user, [])).trans rfl

theorem createSucc_next_session (today : Int) (st : EngineState) (inp : PracticeSessionCreate)
    (user : User) :
    (createSucc today st inp user).next_session_id = st.next_session_id + 1 := by
  unfold createSucc
  exact (foldl_proj_eq (fun a : EngineState × List SessionTask => a.1.next_session_id)
    (createTaskStep st.next_session_id) (createTaskStep_next_session st.next_session_id)
    inp.tasks (createMid today st inp user, [])).trans rfl

theorem update_changed_char (st : EngineState) (sid : Nat) (upd : PracticeSessionUpdate)
    (s : PSession) (user : User) (v : Option Int)
    (hs : findSession st.sessions sid = some s)
    (hv : upd.focus_rating = some v) (hne : v ≠ s.focus_rating)
    (hu : getUser st s.user_id = some user) :
    update_practice_session st sid upd =
      (setUser (setSession st (updatedSession s upd user)) (updatedUser s upd user),
        true) := by
  unfold update_practice_session
  rw [hs]
  try dsimp only []
  rw [hv]
  try dsimp only []
  rw [if_pos (by simpa using hne), hu]

theorem update_unchanged_char (st : EngineState) (sid : Nat) (upd : PracticeSessionUpdate)
    (s : PSession) (hs : findSession st.sessions sid = some s)
    (hf : (match upd.focus_rating with
      | some v => v != s.focus_rating
      | none => false) = false) :
    update_practice_session st sid upd = (setSession st (applyRatingFields s upd), true) := by
  unfold update_practice_session
  rw [hs]
  try dsimp only []
  rw [hf]
  simp

theorem deleteUserAdj_found (st : EngineState) (s : PSession) (user : User)
    (hu : getUser st s.user_id = some user) :
    deleteUserAdj st s = setUser st (deletedUser user s) := by
  unfold deleteUserAdj
  rw [hu]

theorem deleteUserAdj_notfound (st : EngineState) (s : PSession)
    (hu : getUser st s.user_id = none) : deleteUserAdj st s = st := by
  unfold deleteUserAdj
  rw [hu]

theorem delete_found_char (st : EngineState) (sid : Nat) (s : PSession)
    (hs : findSession st.sessions sid = some s) :
    delete_practice_session st sid =
      (deleteRows (((deleteUserAdj st s).session_tasks.filter
          (fun l => l.session_id = sid)).foldl deleteTaskStep (deleteUserAdj st s)) sid,
        true) := by
  unfold delete_practice_session
  rw [hs]

/-! ### Claim 1: the level invariant after every point mutation -/

/-- **C1.** After each operation that mutates points (session creation,
a rating update that changes the focus rating, session deletion), the
affected user's stored level equals `floor(total_points / 100) + 1`. -/
theorem claim1_level_invariant :
    (∀ (today : Int) (st : EngineState) (inp : PracticeSessionCreate) (user : User),
      getUser st inp.user_id = some user →
      ∃ u', getUser (create_practice_session today st inp).1 inp.user_id = some u' ∧
        u'.level = Int.fdiv u'.total_points 100 + 1) ∧
    (∀ (st : EngineState) (sid : Nat) (upd : PracticeSessionUpdate) (s : PSession)
        (v : Option Int) (user : User),
      findSession st.sessions sid = some s →
      upd.focus_rating = some v → v ≠ s.focus_rating →
      getUser st s.user_id = some user →
      ∃ u', getUser (update_practice_session st sid upd).1 s.user_id = some u' ∧
        u'.level = Int.fdiv u'.total_points 100 + 1) ∧
    (∀ (st : EngineState) (sid : Nat) (s : PSession) (user : User),
      findSession st.sessions sid = some s →
      getUser st s.user_id = some user →
      ∃ u', getUser (delete_practice_session st sid).1 s.user_id = some u' ∧
        u'.level = Int.fdiv u'.total_points 100 + 1) := by
  refine ⟨?_, ?_, ?_⟩
  · intro today st inp user huser
    unfold create_practice_session
    rw [huser]
    try dsimp only []
    refine ⟨createdUser today st inp user, ?_, update_user_level_inv _⟩
    rw [getUser_congr (createSucc_users today st inp user) inp.user_id]
    have huid : user.uid = inp.user_id := by
      simpa using List.find?_some huser
    rw [← huid, ← createdUser_uid today st inp user]
    apply getUser_setUser_self
    rw [createdUser_uid today st inp user, huid]
    exact huser
  · intro st sid upd s v user hs hv hne huser
    rw [update_changed_char st sid upd s user v hs hv hne huser]
    try dsimp only []
    refine ⟨updatedUser s upd user, ?_, update_user_level_inv _⟩
    have huid : user.uid = s.user_id := by
      simpa using List.find?_some huser
    have hgoal : getUser (setUser (setSession st (updatedSession s upd user))
        (updatedUser s upd user)) (updatedUser s upd user).uid =
        some (updatedUser s upd user) := by
      apply getUser_setUser_self
      show getUser st (updatedUser s upd user).uid = some user
      show getUser st user.uid = some user
      rw [huid]
      exact huser
    rw [← huid]
    exact hgoal
  · intro st sid s user hs huser
    rw [delete_found_char st sid s hs]
    try dsimp only []
    rw [deleteUserAdj_found st s user huser]
    refine ⟨deletedUser user s, ?_, update_user_level_inv _⟩
    have huid : user.uid = s.user_id := by
      simpa using List.find?_some huser
    have h1 : (deleteRows ((((setUser st (deletedUser user s))).session_tasks.filter
        (fun l => l.session_id = sid)).foldl deleteTaskStep
          (setUser st (deletedUser user s))) sid).users =
        (setUser st (deletedUser user s)).users :=
      foldl_proj_eq EngineState.users deleteTaskStep deleteTaskStep_users _ _
    rw [getUser_congr h1 s.user_id]
    have hgoal : getUser (setUser st (deletedUser user s)) (deletedUser user s).uid =
        some (deletedUser user s) := by
      apply getUser_setUser_self
      show getUser st user.uid = some user
      rw [huid]
      exact huser
    have huid2 : (deletedUser user s).uid = s.user_id := huid
    rw [← huid2]
    exact hgoal

/-- Instantiation of the level invariant for each of the three operations
at concrete stores. -/
theorem claim1_witness :
    (∃ u', getUser (create_practice_session 100 witState witCreate).1 1 = some u' ∧
      u'.level = Int.fdiv u'.total_points 100 + 1) ∧
    (∃ u', getUser (update_practice_session staleState 1 raiseFocus).1 1 = some u' ∧
      u'.level = Int.fdiv u'.total_points 100 + 1) ∧
    (∃ u', getUser (delete_practice_session staleState 1).1 1 = some u' ∧
      u'.level = Int.fdiv u'.total_points 100 + 1) :=
  ⟨claim1_level_invariant.1 100 witState witCreate ⟨1, 2, 0, 1, some 99⟩ rfl,
   claim1_level_invariant.2.1 staleState 1 raiseFocus staleSession (some 5)
     ⟨1, 1, 10, 1, some 100⟩ rfl rfl (by decide) rfl,
   claim1_level_invariant.2.2 staleState 1 staleSession ⟨1, 1, 10, 1, some 100⟩ rfl rfl⟩

/-! ### Claim 8: badge evaluation -/

theorem hasBadge_append (b₁ b₂ : List Badge) (uid : Nat) (t : String) :
    hasBadge (b₁ ++ b₂) uid t = (hasBadge b₁ uid t || hasBadge b₂ uid t) := by
  unfold hasBadge
  rw [List.any_append]

theorem hasBadge_eq_false_iff (base : List Badge) (uid : Nat) (t : String) :
    hasBadge base uid t = false ↔ (⟨uid, t⟩ : Badge) ∉ base := by
  unfold hasBadge
  rw [List.any_eq_false]
  constructor
  · intro h hmem
    have := h _ hmem
    simp at this
  · intro h b hb
    simp only [Bool.and_eq_true, decide_eq_true_eq, not_and]
    intro hu ht
    cases b
    simp only at hu ht
    subst hu
    subst ht
    exact absurd hb h

theorem hasBadge_of_mem {l : List Badge} {uid : Nat} {t : String}
    (h : (⟨uid, t⟩ : Badge) ∈ l) : hasBadge l uid t = true := by
  unfold hasBadge
  rw [List.any_eq_true]
  exact ⟨⟨uid, t⟩, h, by simp⟩

theorem awardFold_char :
    ∀ (conds : List (String × Bool)) (base extra : List Badge) (uid : Nat),
      (conds.map Prod.fst).Nodup →
      (∀ b ∈ extra, b.badge_type ∉ conds.map Prod.fst) →
      conds.foldl (awardStep uid) (base ++ extra, extra) =
        (base ++ (extra ++ expectedBadges base uid conds),
         extra ++ expectedBadges base uid conds) := by
  intro conds
  induction conds with
  | nil =>
    intro base extra uid _ _
    simp [expectedBadges]
  | cons c rest ih =>
    intro base extra uid hnd hdisj
    rw [List.map_cons, List.nodup_cons] at hnd
    obtain ⟨hc, hndr⟩ := hnd
    have hdisj' : ∀ b ∈ extra, b.badge_type ∉ rest.map Prod.fst := by
      intro b hb hmem
      exact hdisj b hb (by rw [List.map_cons]; exact List.mem_cons_of_mem _ hmem)
    rw [List.foldl_cons]
    by_cases hcond : c.2 = true
    · have hextra : hasBadge extra uid c.1 = false := by
        unfold hasBadge
        rw [List.any_eq_false]
        intro b hb
        have hnotin := hdisj b hb
        rw [List.map_cons, List.mem_cons] at hnotin
        simp only [Bool.and_eq_true, decide_eq_true_eq, not_and]
        intro _ ht
        exact hnotin (Or.inl ht)
      by_cases hbase : hasBadge base uid c.1 = true
      · have hstep : awardStep uid (base ++ extra, extra) c = (base ++ extra, extra) := by
          unfold awardStep
          rw [if_pos hcond, if_pos (by rw [hasBadge_append, hbase]; simp)]
        rw [hstep, ih base extra uid hndr hdisj']
        have hexp : expectedBadges base uid (c :: rest) = expectedBadges base uid rest := by
          unfold expectedBadges
          rw [List.filter_cons]
          simp [hbase]
        rw [hexp]
      · have hbase' : hasBadge base uid c.1 = false := by
          simpa using hbase
        have hstep : awardStep uid (base ++ extra, extra) c =
            (base ++ (extra ++ [⟨uid, c.1⟩]), extra ++ [⟨uid, c.1⟩]) := by
          unfold awardStep
          rw [if_pos hcond, if_neg (by rw [hasBadge_append, hbase', hextra]; simp)]
          simp [List.append_assoc]
        rw [hstep]
        have hdisj2 : ∀ b ∈ extra ++ [(⟨uid, c.1⟩ : Badge)],
            b.badge_type ∉ rest.map Prod.fst := by
          intro b hb
          rcases List.mem_append.mp hb with h1 | h2
          · exact hdisj' b h1
          · have hb2 : b = (⟨uid, c.1⟩ : Badge) := by simpa using h2
            subst hb2
            simpa using hc
        rw [ih base (extra ++ [(⟨uid, c.1⟩ : Badge)]) uid hndr hdisj2]
        have hexp : expectedBadges base uid (c :: rest) =
            ⟨uid, c.1⟩ :: expectedBadges base uid rest := by
          unfold expectedBadges
          rw [List.filter_cons]
          simp [hcond, hbase']
        rw [hexp]
        simp [List.append_assoc]
    · have hcond' : c.2 = false := by simpa using hcond
      have hstep : awardStep uid (base ++ extra, extra) c = (base ++ extra, extra) := by
        unfold awardStep
        rw [if_neg (by simp [hcond'])]
      rw [hstep, ih base extra uid hndr hdisj']
      have hexp : expectedBadges base uid (c :: rest) = expectedBadges base uid rest := by
        unfold expectedBadges
        rw [List.filter_cons]
        simp [hcond']
      rw [hexp]

theorem badgeConds_names (n : Nat) (u : User) (s : PSession) :
    (badgeConds n u s).map Prod.fst =
      ["first_session", "streak_3", "streak_7", "streak_30", "marathon",
       "perfect_focus", "early_bird", "night_owl"] := rfl

theorem check_and_award_badges_char (st : EngineState) (u : User) (s : PSession) :
    check_and_award_badges st u s =
      ({ st with
          badges := st.badges ++
            expectedBadges st.badges u.uid
              (badgeConds ((st.sessions.filter (fun x => x.user_id = u.uid)).length) u s) },
       expectedBadges st.badges u.uid
          (badgeConds ((st.sessions.filter (fun x => x.user_id = u.uid)).length) u s)) := by
  unfold check_and_award_badges
  try dsimp only []
  have h0 : (st.badges, ([] : List Badge)) =
      (st.badges ++ ([] : List Badge), ([] : List Badge)) := by simp
  rw [h0, awardFold_char _ st.badges [] u.uid
    (by rw [badgeConds_names]; decide) (by intro b hb; cases hb)]
  simp

theorem mem_expectedBadges (base : List Badge) (uid : Nat)
    (conds : List (String × Bool)) (t : String) :
    ((⟨uid, t⟩ : Badge) ∈ expectedBadges base uid conds ↔
      ∃ c ∈ conds, c.1 = t ∧ c.2 = true ∧ hasBadge base uid t = false) := by
  unfold expectedBadges
  simp only [List.mem_map, List.mem_filter, Bool.and_eq_true, Bool.not_eq_true']
  constructor
  · rintro ⟨c, ⟨hc, hcond, hnb⟩, heq⟩
    have ht : c.1 = t := by
      cases heq
      rfl
    exact ⟨c, hc, ht, hcond, ht ▸ hnb⟩
  · rintro ⟨c, hc, h1, h2, h3⟩
    exact ⟨c, ⟨hc, h2, h1 ▸ h3⟩, by rw [h1]⟩

theorem expectedBadges_nodup (base : List Badge) (uid : Nat)
    (conds : List (String × Bool)) (h : (conds.map Prod.fst).Nodup) :
    (expectedBadges base uid conds).Nodup := by
  unfold expectedBadges
  have hcomp : (fun c : String × Bool => (⟨uid, c.1⟩ : Badge)) =
      (fun t : String => (⟨uid, t⟩ : Badge)) ∘ Prod.fst := rfl
  rw [hcomp, ← List.map_map]
  apply List.Nodup.map
  · intro a b hab
    simpa using hab
  · exact ((List.filter_sublist _).map Prod.fst).nodup h

/-- **C8.** Badge granting is idempotent and at most one grant exists per
(user, badge type): a second evaluation with identical inputs grants
nothing, an already-held type is never re-granted, grant multiplicity
stays at most one, and each type is newly granted exactly when its trigger
fires and the type is not yet held (first_session at stored session count
1, streak_3/7/30 at streak at least 3/7/30, marathon at duration at least
60, perfect_focus at focus exactly 5, early_bird before hour 8, night_owl
from hour 22). -/
theorem claim8_badge_idempotence (st : EngineState) (u : User) (s : PSession) :
    ((check_and_award_badges (check_and_award_badges st u s).1 u s).2 = []) ∧
    (∀ t, hasBadge st.badges u.uid t = true →
      (⟨u.uid, t⟩ : Badge) ∉ (check_and_award_badges st u s).2) ∧
    ((∀ b : Badge, st.badges.count b ≤ 1) →
      ∀ b : Badge, (check_and_award_badges st u s).1.badges.count b ≤ 1) ∧
    (∀ t, (⟨u.uid, t⟩ : Badge) ∈ (check_and_award_badges st u s).2 →
      hasBadge st.badges u.uid t = false) ∧
    (((⟨u.uid, "first_session"⟩ : Badge) ∈ (check_and_award_badges st u s).2 ↔
      (st.sessions.filter (fun x => x.user_id = u.uid)).length = 1 ∧
        hasBadge st.badges u.uid "first_session" = false) ∧
    ((⟨u.uid, "streak_3"⟩ : Badge) ∈ (check_and_award_badges st u s).2 ↔
      u.streak_count ≥ 3 ∧ hasBadge st.badges u.uid "streak_3" = false) ∧
    ((⟨u.uid, "streak_7"⟩ : Badge) ∈ (check_and_award_badges st u s).2 ↔
      u.streak_count ≥ 7 ∧ hasBadge st.badges u.uid "streak_7" = false) ∧
    ((⟨u.uid, "streak_30"⟩ : Badge) ∈ (check_and_award_badges st u s).2 ↔
      u.streak_count ≥ 30 ∧ hasBadge st.badges u.uid "streak_30" = false) ∧
    ((⟨u.uid, "marathon"⟩ : Badge) ∈ (check_and_award_badges st u s).2 ↔
      s.duration_minutes ≥ 60 ∧ hasBadge st.badges u.uid "marathon" = false) ∧
    ((⟨u.uid, "perfect_focus"⟩ : Badge) ∈ (check_and_award_badges st u s).2 ↔
      s.focus_rating = some 5 ∧ hasBadge st.badges u.uid "perfect_focus" = false) ∧
    ((⟨u.uid, "early_bird"⟩ : Badge) ∈ (check_and_award_badges st u s).2 ↔
      s.start_hour < 8 ∧ hasBadge st.badges u.uid "early_bird" = false) ∧
    ((⟨u.uid, "night_owl"⟩ : Badge) ∈ (check_and_award_badges st u s).2 ↔
      s.start_hour ≥ 22 ∧ hasBadge st.badges u.uid "night_owl" = false)) := by
  have hchar := check_and_award_badges_char st u s
  set n := (st.sessions.filter (fun x => x.user_id = u.uid)).length with hn
  set E := expectedBadges st.badges u.uid (badgeConds n u s) with hE
  have hnames : ((badgeConds n u s).map Prod.fst).Nodup := by
    rw [badgeConds_names]
    decide
  refine ⟨?_, ?_, ?_, ?_, ?_⟩
  · -- idempotence: the second evaluation grants nothing
    have hchar2 := check_and_award_badges_char (check_and_award_badges st u s).1 u s
    rw [hchar2]
    have hsess : ((check_and_award_badges st u s).1.sessions.filter
        (fun x => x.user_id = u.uid)).length = n := by
      rw [hchar]
    have hbadges : (check_and_award_badges st u s).1.badges = st.badges ++ E := by
      rw [hchar]
    rw [hsess, hbadges]
    try dsimp only []
    unfold expectedBadges
    rw [List.map_eq_nil_iff, List.filter_eq_nil_iff]
    intro c hcmem
    simp only [Bool.and_eq_true, Bool.not_eq_true', not_and]
    intro hcond
    rw [hasBadge_append]
    by_cases hb : hasBadge st.badges u.uid c.1 = true
    · simp [hb]
    · have hb' : hasBadge st.badges u.uid c.1 = false := by simpa using hb
      have hmem : (⟨u.uid, c.1⟩ : Badge) ∈ E := by
        rw [hE, mem_expectedBadges]
        exact ⟨c, hcmem, rfl, hcond, hb'⟩
      rw [hasBadge_of_mem hmem]
      simp
  · -- an already-held type is never granted again
    intro t ht hmem
    rw [hchar] at hmem
    try dsimp only [] at hmem
    rw [hE] at hmem  -- may be no-op
    rw [mem_expectedBadges] at hmem
    obtain ⟨c, _, _, _, hfalse⟩ := hmem
    rw [ht] at hfalse
    cases hfalse
  · -- multiplicity stays at most one
    intro hcount b
    rw [hchar]
    try dsimp only []
    rw [List.count_append]
    by_cases hbE : b ∈ E
    · have hb0 : st.badges.count b = 0 := by
        rw [List.count_eq_zero]
        cases b with
        | mk buid btype =>
          have hb' := hbE
          rw [hE] at hb'
          unfold expectedBadges at hb'
          simp only [List.mem_map, List.mem_filter] at hb'
          obtain ⟨c, ⟨_, hcnd⟩, heq⟩ := hb'
          have huid : buid = u.uid := by cases heq; rfl
          have htype : btype = c.1 := by cases heq; rfl
          subst huid
          subst htype
          simp only [Bool.and_eq_true, Bool.not_eq_true'] at hcnd
          exact (hasBadge_eq_false_iff st.badges u.uid c.1).mp hcnd.2
      have hE1 : E.count b ≤ 1 :=
        List.nodup_iff_count_le_one.mp (expectedBadges_nodup _ _ _ hnames) b
      omega
    · have hE0 : E.count b = 0 := List.count_eq_zero.mpr hbE
      have := hcount b
      omega
  · -- a granted type was not held before
    intro t hmem
    rw [hchar] at hmem
    try dsimp only [] at hmem
    rw [mem_expectedBadges] at hmem
    obtain ⟨c, _, _, _, hfalse⟩ := hmem
    exact hfalse
  · -- the eight trigger characterizations
    have hiff : ∀ t : String,
        ((⟨u.uid, t⟩ : Badge) ∈ (check_and_award_badges st u s).2 ↔
          ∃ c ∈ badgeConds n u s, c.1 = t ∧ c.2 = true ∧
            hasBadge st.badges u.uid t = false) := by
      intro t
      rw [hchar]
      try dsimp only []
      exact mem_expectedBadges st.badges u.uid (badgeConds n u s) t
    refine ⟨?_, ?_, ?_, ?_, ?_, ?_, ?_, ?_⟩ <;>
      rw [hiff] <;>
      simp [badgeConds]

/-- Instantiation of badge idempotence at a concrete store: evaluating the
same session twice grants nothing the second time, and multiplicity stays
at most one starting from a duplicate-free store. -/
theorem claim8_witness :
    ((check_and_award_badges
        (check_and_award_badges staleState ⟨1, 1, 10, 1, some 100⟩ staleSession).1
        ⟨1, 1, 10, 1, some 100⟩ staleSession).2 = []) ∧
    (∀ b : Badge, (check_and_award_badges staleState ⟨1, 1, 10, 1, some 100⟩
      staleSession).1.badges.count b ≤ 1) := by
  have h := claim8_badge_idempotence staleState ⟨1, 1, 10, 1, some 100⟩ staleSession
  exact ⟨h.1, h.2.2.1 (by intro b; simp [staleState]) ⟩

/-- Instantiation of the readiness-recompute theorem: creating a session
against a task with no estimated time stores the score recomputed over
the pre-creation link set (zero here). -/
theorem claim9_witness :
    getTask (create_practice_session 100 wit0State witCreate).1 7 =
      some ⟨7, 1, 0, 40, 1, 0, TaskStatus.in_progress⟩ ∧
    (⟨7, 1, 0, 40, 1, 0, TaskStatus.in_progress⟩ : Task).readiness_score =
      calculate_task_readiness
        { wit0State with sessions := wit0State.sessions ++
            [createdSession 100 wit0State witCreate ⟨1, 2, 0, 1, some 99⟩] }
        ⟨7, 1, 0, 40, 1, 0, TaskStatus.in_progress⟩ := by
  have hfind : getTask (createMid 100 wit0State witCreate ⟨1, 2, 0, 1, some 99⟩) 7 =
      some ⟨7, 1, 0, 0, 0, 0, TaskStatus.not_started⟩ := rfl
  have htau : applySessionTask
      (createMid 100 wit0State witCreate ⟨1, 2, 0, 1, some 99⟩)
      ⟨7, 1, 0, 0, 0, 0, TaskStatus.not_started⟩ ⟨7, 40⟩ =
      ⟨7, 1, 0, 40, 1, 0, TaskStatus.in_progress⟩ := by
    unfold applySessionTask calculate_task_readiness
    norm_num
  have hget : getTask (create_practice_session 100 wit0State witCreate).1 7 =
      some ⟨7, 1, 0, 40, 1, 0, TaskStatus.in_progress⟩ := by
    unfold create_practice_session
    rw [show getUser wit0State witCreate.user_id =
      some ⟨1, 2, 0, 1, some 99⟩ from rfl]
    try dsimp only []
    unfold createSucc
    rw [getTask_congr (rfl :
      ((check_and_award_badges
        (commitLinks (witCreate.tasks.foldl (createTaskStep wit0State.next_session_id)
          (createMid 100 wit0State witCreate ⟨1, 2, 0, 1, some 99⟩, [])))
        (createdUser 100 wit0State witCreate ⟨1, 2, 0, 1, some 99⟩)
        (createdSession 100 wit0State witCreate ⟨1, 2, 0, 1, some 99⟩)).1).tasks =
      ((witCreate.tasks.foldl (createTaskStep wit0State.next_session_id)
        (createMid 100 wit0State witCreate ⟨1, 2, 0, 1, some 99⟩, [])).1).tasks) 7]
    show getTask ((createTaskStep 1
      (createMid 100 wit0State witCreate ⟨1, 2, 0, 1, some 99⟩, []) ⟨7, 40⟩).1) 7 = _
    rw [createTaskStep_found 1 _ ⟨7, 40⟩ ⟨7, 1, 0, 0, 0, 0, TaskStatus.not_started⟩ hfind]
    try dsimp only []
    rw [htau]
    exact getTask_setTask_self _ ⟨7, 1, 0, 0, 0, 0, TaskStatus.not_started⟩ _ hfind
  refine ⟨hget, ?_⟩
  exact claim9_readiness_recompute.1 100 wit0State witCreate ⟨1, 2, 0, 1, some 99⟩
    rfl (by decide) ⟨7, 40⟩ (by decide) (by decide) _ hget

/-! ### Claim 6: deletion reverses a session's additive effects -/

theorem addRanks_map_rank :
    ∀ (l : List RawEntry) (i : Nat),
      (addRanks i l).map (fun e => e.rank) = List.range' (i + 1) l.length := by
  intro l
  induction l with
  | nil => intro i; rfl
  | cons e rest ih =>
    intro i
    rw [addRanks, List.map_cons, List.length_cons, List.range'_succ, ih (i + 1)]

theorem addRanks_map_payload :
    ∀ (l : List RawEntry) (i : Nat), (addRanks i l).map toRawEntry = l := by
  intro l
  induction l with
  | nil => intro i; rfl
  | cons e rest ih =>
    intro i
    rw [addRanks, List.map_cons, ih (i + 1)]
    cases e
    rfl

theorem lbLe_trans (a b c : RawEntry) :
    (fun a b : RawEntry => decide (b.weekly_minutes ≤ a.weekly_minutes)) a b →
    (fun a b : RawEntry => decide (b.weekly_minutes ≤ a.weekly_minutes)) b c →
    (fun a b : RawEntry => decide (b.weekly_minutes ≤ a.weekly_minutes)) a c := by
  simp only [decide_eq_true_eq]
  omega

theorem lbLe_total (a b : RawEntry) :
    ((fun a b : RawEntry => decide (b.weekly_minutes ≤ a.weekly_minutes)) a b ||
     (fun a b : RawEntry => decide (b.weekly_minutes ≤ a.weekly_minutes)) b a) := by
  simp only [Bool.or_eq_true, decide_eq_true_eq]
  omega

/-- **C7.** The weekly leaderboard assigns the ranks 1..N in output order;
the output is sorted by weekly minutes descending; its member rows are a
permutation of the per-member weekly aggregates; ties keep input order
(the rows with any fixed minute value appear exactly as in the input, the
stable-sort property); a member with no stored sessions gets a row with
zero minutes and zero points; and the aggregation window is the
Monday-to-Sunday week containing today. -/
theorem claim7_leaderboard (today : Int) (members : List User)
    (sessions : List PSession) :
    ((get_weekly_leaderboard today members sessions).map (fun e => e.rank) =
      List.range' 1 members.length) ∧
    ((get_weekly_leaderboard today members sessions).Pairwise
      (fun a b => b.weekly_minutes ≤ a.weekly_minutes)) ∧
    (((get_weekly_leaderboard today members sessions).map toRawEntry).Perm
      (lbRawEntries today members sessions)) ∧
    (∀ v : Int, ((get_weekly_leaderboard today members sessions).map toRawEntry).filter
        (fun e => e.weekly_minutes = v) =
      (lbRawEntries today members sessions).filter (fun e => e.weekly_minutes = v)) ∧
    (∀ m ∈ members, (∀ s ∈ sessions, s.user_id ≠ m.uid) →
      rawEntry (lbWeekStart today) (lbWeekStart today + 6) sessions m =
        ⟨m.uid, 0, 0⟩) ∧
    ((∀ s ∈ sessions, 0 ≤ s.duration_minutes) →
      ∀ e ∈ get_weekly_leaderboard today members sessions, 0 ≤ e.weekly_minutes) ∧
    (weekday (lbWeekStart today) = 0 ∧ lbWeekStart today ≤ today ∧
      today ≤ lbWeekStart today + 6) := by
  have hout : get_weekly_leaderboard today members sessions =
      addRanks 0 ((lbRawEntries today members sessions).mergeSort
        (fun a b => b.weekly_minutes ≤ a.weekly_minutes)) := rfl
  set raw := lbRawEntries today members sessions with hraw
  set sorted := raw.mergeSort (fun a b => b.weekly_minutes ≤ a.weekly_minutes) with hsorted
  have hperm : sorted.Perm raw := List.mergeSort_perm raw _
  have hpay : (get_weekly_leaderboard today members sessions).map toRawEntry = sorted := by
    rw [hout, addRanks_map_payload]
  refine ⟨?_, ?_, ?_, ?_, ?_, ?_, ?_⟩
  · rw [hout, addRanks_map_rank]
    have hlen : sorted.length = members.length := by
      rw [hsorted, List.length_mergeSort, hraw]
      unfold lbRawEntries
      rw [List.length_map]
    rw [hlen]
  · have hs := List.sorted_mergeSort lbLe_trans lbLe_total raw
    rw [← hsorted] at hs
    rw [← hpay] at hs
    have hs2 := (List.pairwise_map.mp hs)
    exact hs2.imp (fun h => by simpa using h)
  · rw [hpay]
    exact hperm
  · intro v
    rw [hpay]
    have hpw : (raw.filter (fun e => e.weekly_minutes = v)).Pairwise
        (fun a b : RawEntry => decide (b.weekly_minutes ≤ a.weekly_minutes) = true) := by
      apply List.pairwise_iff_forall_sublist.mpr
      intro a b hab
      have ha := hab.subset
      have hma := List.mem_filter.mp (ha (List.mem_cons_self a [b]))
      have hmb := List.mem_filter.mp (ha (List.mem_cons_of_mem a (List.mem_cons_self b [])))
      simp only [decide_eq_true_eq] at hma hmb ⊢
      omega
    have hsubl : List.Sublist (raw.filter (fun e => e.weekly_minutes = v)) sorted := by
      rw [hsorted]
      exact List.sublist_mergeSort lbLe_trans lbLe_total hpw (List.filter_sublist raw)
    have h1 : List.Sublist ((raw.filter (fun e => e.weekly_minutes = v)).filter
        (fun e => e.weekly_minutes = v)) (sorted.filter (fun e => e.weekly_minutes = v)) :=
      hsubl.filter _
    rw [List.filter_eq_self.mpr (fun a ha => (List.mem_filter.mp ha).2)] at h1
    have h2 : (sorted.filter (fun e => e.weekly_minutes = v)).Perm
        (raw.filter (fun e => e.weekly_minutes = v)) := hperm.filter _
    exact (h1.eq_of_length h2.length_eq.symm).symm
  · intro m _ hnone
    unfold rawEntry
    have hfil : sessions.filter (fun s =>
        s.user_id = m.uid && lbWeekStart today ≤ s.start_date &&
          s.start_date ≤ lbWeekStart today + 6) = [] := by
      rw [List.filter_eq_nil_iff]
      intro s hs
      simp [hnone s hs]
    rw [hfil]
    rfl
  · intro hdur e he
    have hmem : toRawEntry e ∈ sorted := by
      rw [← hpay]
      exact List.mem_map_of_mem toRawEntry he
    have hmem2 : toRawEntry e ∈ raw := hperm.subset hmem
    rw [hraw] at hmem2
    unfold lbRawEntries at hmem2
    obtain ⟨m, _, hm⟩ := List.mem_map.mp hmem2
    have hmin : e.weekly_minutes = (rawEntry (lbWeekStart today)
        (lbWeekStart today + 6) sessions m).weekly_minutes := by
      rw [hm]
      rfl
    rw [hmin]
    unfold rawEntry
    apply List.sum_nonneg
    intro x hx
    obtain ⟨s, hs, hxs⟩ := List.mem_map.mp hx
    rw [← hxs]
    exact hdur s (List.mem_filter.mp hs).1
  · unfold lbWeekStart weekday
    omega

/-- Instantiation of the leaderboard theorem: three members with weekly
minutes 0, 45, 120 get ranks 1..3, and the sessionless member's row is
zero. -/
theorem claim7_witness :
    ((get_weekly_leaderboard 3 lbMembers lbSessions).map (fun e => e.rank) =
      List.range' 1 3) ∧
    rawEntry (lbWeekStart 3) (lbWeekStart 3 + 6) lbSessions ⟨1, 0, 0, 1, none⟩ =
      ⟨1, 0, 0⟩ := by
  have h := claim7_leaderboard 3 lbMembers lbSessions
  exact ⟨h.1, h.2.2.2.2.1 ⟨1, 0, 0, 1, none⟩ (by decide) (by decide)⟩

/-! ### Claim 10: points stay non-negative, levels stay positive -/

theorem sumPoints_nil (uid : Nat) : sumPoints [] uid = 0 := rfl

theorem sumPoints_cons (s : PSession) (l : List PSession) (uid : Nat) :
    sumPoints (s :: l) uid =
      (if s.user_id = uid then s.points_earned else 0) + sumPoints l uid := by
  unfold sumPoints
  rw [List.filter_cons]
  by_cases h : s.user_id = uid
  · simp [h]
  · simp [h]

theorem sumPoints_append (l₁ l₂ : List PSession) (uid : Nat) :
    sumPoints (l₁ ++ l₂) uid = sumPoints l₁ uid + sumPoints l₂ uid := by
  unfold sumPoints
  rw [List.filter_append, List.map_append, List.sum_append]

theorem sumPoints_nonneg (l : List PSession) (uid : Nat)
    (h : ∀ s ∈ l, 0 ≤ s.points_earned) : 0 ≤ sumPoints l uid := by
  unfold sumPoints
  apply List.sum_nonneg
  intro x hx
  obtain ⟨s, hs, hxs⟩ := List.mem_map.mp hx
  rw [← hxs]
  exact h s (List.mem_filter.mp hs).1

theorem sumPoints_eq_zero (l : List PSession) (uid : Nat)
    (h : ∀ s ∈ l, ¬ s.user_id = uid) : sumPoints l uid = 0 := by
  unfold sumPoints
  rw [List.filter_eq_nil_iff.mpr (by intro s hs; simpa using h s hs)]
  rfl

theorem sumPoints_replace :
    ∀ (l : List PSession) (s new : PSession) (uid : Nat),
      l.find? (fun v => v.sid = new.sid) = some s →
      (l.map PSession.sid).Nodup →
      sumPoints (l.map (fun v => if v.sid = new.sid then new else v)) uid =
        sumPoints l uid - (if s.user_id = uid then s.points_earned else 0) +
          (if new.user_id = uid then new.points_earned else 0) := by
  intro l
  induction l with
  | nil => intro s new uid h; simp at h
  | cons a t ih =>
    intro s new uid h hnd
    rw [List.map_cons, List.nodup_cons] at hnd
    obtain ⟨ha, hndt⟩ := hnd
    by_cases hsid : a.sid = new.sid
    · rw [List.find?_cons_of_pos _ (by simp [hsid])] at h
      have hsa : s = a := by
        have := Option.some_inj.mp h
        exact this.symm
      subst hsa
      have htno : ∀ v ∈ t, ¬ v.sid = new.sid := by
        intro v hv hveq
        exact ha (by rw [hsid, ← hveq]; exact List.mem_map_of_mem PSession.sid hv)
      have hmap : t.map (fun v => if v.sid = new.sid then new else v) = t :=
        ((List.map_congr_left (fun v hv => if_neg (htno v hv))).trans (List.map_id t))
      rw [List.map_cons, if_pos hsid, hmap, sumPoints_cons, sumPoints_cons]
      ring
    · rw [List.find?_cons_of_neg _ (by simp [hsid])] at h
      rw [List.map_cons, if_neg hsid, sumPoints_cons, sumPoints_cons,
        ih s new uid h hndt]
      ring

theorem sumPoints_remove :
    ∀ (l : List PSession) (s : PSession) (i : Nat) (uid : Nat),
      l.find? (fun v => v.sid = i) = some s →
      (l.map PSession.sid).Nodup →
      sumPoints (l.filter (fun v => ¬ v.sid = i)) uid =
        sumPoints l uid - (if s.user_id = uid then s.points_earned else 0) := by
  intro l
  induction l with
  | nil => intro s i uid h; simp at h
  | cons a t ih =>
    intro s i uid h hnd
    rw [List.map_cons, List.nodup_cons] at hnd
    obtain ⟨ha, hndt⟩ := hnd
    by_cases hsid : a.sid = i
    · rw [List.find?_cons_of_pos _ (by simp [hsid])] at h
      have hsa : s = a := (Option.some_inj.mp h).symm
      subst hsa
      have htno : ∀ v ∈ t, ¬ v.sid = i := by
        intro v hv hveq
        exact ha (by rw [hsid, ← hveq]; exact List.mem_map_of_mem PSession.sid hv)
      rw [List.filter_cons_of_neg (by simp [hsid]),
        List.filter_eq_self.mpr (by intro v hv; simpa using htno v hv),
        sumPoints_cons]
      ring
    · rw [List.find?_cons_of_neg _ (by simp [hsid])] at h
      rw [List.filter_cons_of_pos (by simp [hsid]), sumPoints_cons, sumPoints_cons,
        ih s i uid h hndt]
      ring

theorem calculate_points_nonneg (s : PSession) (u : User)
    (h : 0 ≤ s.duration_minutes) : 0 ≤ calculate_points s u := by
  unfold calculate_points
  try dsimp only []
  apply pyInt_nonneg
  apply mul_nonneg
  apply mul_nonneg
  · exact_mod_cast h
  · split_ifs <;> norm_num
  · cases hf : s.focus_rating
    · norm_num
    · try dsimp only []
      split_ifs <;> norm_num

theorem update_user_level_pos (w : User) (h : 0 ≤ w.total_points) :
    1 ≤ (update_user_level w).level := by
  show 1 ≤ Int.fdiv w.total_points 100 + 1
  have := Int.fdiv_nonneg h (by norm_num : (0:Int) ≤ 100)
  omega

theorem update_user_level_total (w : User) :
    (update_user_level w).total_points = w.total_points := rfl

theorem createdUser_total (today : Int) (st : EngineState) (inp : PracticeSessionCreate)
    (user : User) :
    (createdUser today st inp user).total_points =
      user.total_points + createPoints today st inp user := by
  show (update_streak today user).total_points + createPoints today st inp user =
    user.total_points + createPoints today st inp user
  rw [update_streak_total]

theorem applyRatingFields_core (s : PSession) (upd : PracticeSessionUpdate) :
    (applyRatingFields s upd).sid = s.sid ∧
    (applyRatingFields s upd).user_id = s.user_id ∧
    (applyRatingFields s upd).duration_minutes = s.duration_minutes ∧
    (applyRatingFields s upd).points_earned = s.points_earned := by
  obtain ⟨f, p, e, n⟩ := upd
  unfold applyRatingFields
  cases f <;> cases p <;> cases e <;> cases n <;> exact ⟨rfl, rfl, rfl, rfl⟩

theorem getUser_uid {st : EngineState} {uid : Nat} {u : User}
    (h : getUser st uid = some u) : u.uid = uid := by
  simpa using List.find?_some h

theorem getUser_mem {st : EngineState} {uid : Nat} {u : User}
    (h : getUser st uid = some u) : u ∈ st.users :=
  List.mem_of_find?_eq_some h

theorem findSession_sid {l : List PSession} {i : Nat} {s : PSession}
    (h : findSession l i = some s) : s.sid = i := by
  simpa using List.find?_some h

theorem findSession_mem {l : List PSession} {i : Nat} {s : PSession}
    (h : findSession l i = some s) : s ∈ l :=
  List.mem_of_find?_eq_some h

theorem inv_initState : Inv initState := by
  refine ⟨?_, ?_, ?_, ?_⟩
  · intro u hu
    exact absurd hu (List.not_mem_nil u)
  · intro s hs
    exact absurd hs (List.not_mem_nil s)
  · exact List.nodup_nil
  · exact List.nodup_nil

theorem mem_setUser {st : EngineState} {u v' : User}
    (h : v' ∈ (setUser st u).users) :
    ∃ v ∈ st.users, v' = if v.uid = u.uid then u else v := by
  obtain ⟨v, hv, hveq⟩ := List.mem_map.mp h
  exact ⟨v, hv, hveq.symm⟩

theorem mem_setSession {st : EngineState} {s : PSession} {x : PSession}
    (h : x ∈ (setSession st s).sessions) :
    ∃ v ∈ st.sessions, x = if v.sid = s.sid then s else v := by
  obtain ⟨v, hv, hveq⟩ := List.mem_map.mp h
  exact ⟨v, hv, hveq.symm⟩

theorem setUser_map_uid (st : EngineState) (u : User) :
    (setUser st u).users.map User.uid = st.users.map User.uid :=
  map_key_map_update User.uid u st.users

theorem setSession_map_sid (st : EngineState) (s : PSession) :
    (setSession st s).sessions.map PSession.sid = st.sessions.map PSession.sid :=
  map_key_map_update PSession.sid s st.sessions

theorem createdUser_pos (today : Int) (st : EngineState) (inp : PracticeSessionCreate)
    (user : User) (h : 0 ≤ user.total_points + createPoints today st inp user) :
    1 ≤ (createdUser today st inp user).level := by
  unfold createdUser
  apply update_user_level_pos
  show 0 ≤ (update_streak today user).total_points + createPoints today st inp user
  rw [update_streak_total]
  exact h

theorem inv_newUser (st : EngineState) (h : Inv st) : Inv (create_user st).1 := by
  obtain ⟨husers, hsess, hnodU, hnodS⟩ := h
  unfold create_user
  try dsimp only []
  refine ⟨?_, ?_, ?_, ?_⟩
  · intro u hu
    rcases List.mem_append.mp hu with h1 | h2
    · obtain ⟨ht, hl, hb⟩ := husers u h1
      exact ⟨ht, hl, Nat.lt_succ_of_lt hb⟩
    · have hu2 : u = ⟨st.next_user_id, 0, 0, 1, none⟩ := by simpa using h2
      subst hu2
      refine ⟨?_, by norm_num, Nat.lt_succ_self _⟩
      have h0 : sumPoints st.sessions st.next_user_id = 0 := by
        apply sumPoints_eq_zero
        intro s hs heq
        have := (hsess s hs).2.2.2
        omega
      exact h0.symm
  · intro s hs
    obtain ⟨h1, h2, h3, h4⟩ := hsess s hs
    exact ⟨h1, h2, h3, Nat.lt_succ_of_lt h4⟩
  · rw [List.map_append, List.nodup_append]
    refine ⟨hnodU, List.nodup_singleton _, ?_⟩
    intro x hx hx2
    have hx3 : x = st.next_user_id := by simpa using hx2
    subst hx3
    obtain ⟨u, hu, hux⟩ := List.mem_map.mp hx
    have := (husers u hu).2.2
    omega
  · exact hnodS

theorem inv_createSession (today : Int) (st : EngineState) (inp : PracticeSessionCreate)
    (hval : 0 < inp.duration_minutes) (h : Inv st) :
    Inv (create_practice_session today st inp).1 := by
  obtain ⟨husers, hsess, hnodU, hnodS⟩ := h
  cases huser : getUser st inp.user_id with
  | none =>
    unfold create_practice_session
    rw [huser]
    exact ⟨husers, hsess, hnodU, hnodS⟩
  | some user =>
    unfold create_practice_session
    rw [huser]
    try dsimp only []
    unfold Inv
    rw [createSucc_users today st inp user, createSucc_sessions today st inp user,
      createSucc_next_user today st inp user, createSucc_next_session today st inp user]
    have huid : user.uid = inp.user_id := getUser_uid huser
    have hmemU : user ∈ st.users := getUser_mem huser
    have hpts : 0 ≤ createPoints today st inp user := by
      unfold createPoints
      apply calculate_points_nonneg
      show 0 ≤ inp.duration_minutes
      omega
    have hcuuid : (createdUser today st inp user).uid = user.uid :=
      createdUser_uid today st inp user
    have hcsuid : (createdSession today st inp user).user_id = inp.user_id := rfl
    refine ⟨?_, ?_, ?_, ?_⟩
    · intro u' hu'
      obtain ⟨v, hv, hveq⟩ := mem_setUser hu'
      by_cases hc : v.uid = (createdUser today st inp user).uid
      · rw [if_pos hc] at hveq
        subst hveq
        obtain ⟨hvt, _, hvb⟩ := husers user hmemU
        refine ⟨?_, ?_, ?_⟩
        · rw [sumPoints_append, sumPoints_cons, sumPoints_nil, createdUser_total,
            hcuuid, huid]
          rw [if_pos hcsuid]
          have hcspts : (createdSession today st inp user).points_earned =
            createPoints today st inp user := rfl
          rw [hcspts, ← huid, hvt, huid]
          ring
        · apply createdUser_pos
          have h0 : 0 ≤ sumPoints st.sessions user.uid :=
            sumPoints_nonneg _ _ (fun s hs => (hsess s hs).1)
          omega
        · rw [hcuuid]
          exact hvb
      · rw [if_neg hc] at hveq
        obtain ⟨hvt, hvl, hvb⟩ := husers v hv
        rw [hveq]
        refine ⟨?_, hvl, hvb⟩
        rw [sumPoints_append, sumPoints_cons, sumPoints_nil]
        rw [if_neg (by
          rw [hcsuid, ← huid, ← hcuuid]
          exact fun he => hc he.symm)]
        rw [hvt]
        ring
    · intro s' hs'
      rcases List.mem_append.mp hs' with h1 | h2
      · obtain ⟨p1, p2, p3, p4⟩ := hsess s' h1
        exact ⟨p1, p2, by omega, p4⟩
      · have hs2 : s' = createdSession today st inp user := by simpa using h2
        subst hs2
        refine ⟨hpts, by show 0 ≤ inp.duration_minutes; omega, ?_, ?_⟩
        · show st.next_session_id < st.next_session_id + 1
          omega
        · show inp.user_id < st.next_user_id
          rw [← huid]
          exact (husers user hmemU).2.2
    · rw [setUser_map_uid]
      exact hnodU
    · rw [List.map_append, List.nodup_append]
      refine ⟨hnodS, List.nodup_singleton _, ?_⟩
      intro x hx hx2
      have hx3 : x = st.next_session_id := by simpa using hx2
      subst hx3
      obtain ⟨s0, hs0, hsx⟩ := List.mem_map.mp hx
      have := (hsess s0 hs0).2.2.1
      omega

theorem inv_setSession_samepts (st : EngineState) (s new : PSession)
    (hfind : st.sessions.find? (fun v => v.sid = new.sid) = some s)
    (huid : new.user_id = s.user_id)
    (hdur : new.duration_minutes = s.duration_minutes)
    (hpts : new.points_earned = s.points_earned)
    (h : Inv st) : Inv (setSession st new) := by
  obtain ⟨husers, hsess, hnodU, hnodS⟩ := h
  have hsmem : s ∈ st.sessions := List.mem_of_find?_eq_some hfind
  have hssid : s.sid = new.sid := by simpa using List.find?_some hfind
  refine ⟨?_, ?_, ?_, ?_⟩
  · intro u hu
    obtain ⟨hut, hul, hub⟩ := husers u hu
    refine ⟨?_, hul, hub⟩
    show u.total_points = sumPoints (st.sessions.map
      (fun v => if v.sid = new.sid then new else v)) u.uid
    rw [sumPoints_replace st.sessions s new u.uid hfind hnodS, huid, hpts, hut]
    ring
  · intro s' hs'
    obtain ⟨v, hv, hveq⟩ := mem_setSession hs'
    by_cases hc : v.sid = new.sid
    · rw [if_pos hc] at hveq
      rw [hveq]
      obtain ⟨p1, p2, p3, p4⟩ := hsess s hsmem
      refine ⟨by rw [hpts]; exact p1, by rw [hdur]; exact p2, ?_, by rw [huid]; exact p4⟩
      rw [← hssid]
      exact p3
    · rw [if_neg hc] at hveq
      rw [hveq]
      exact hsess v hv
  · exact hnodU
  · rw [setSession_map_sid]
    exact hnodS

theorem inv_updateSession (st : EngineState) (sid : Nat) (upd : PracticeSessionUpdate)
    (h : Inv st) : Inv (update_practice_session st sid upd).1 := by
  cases hs : findSession st.sessions sid with
  | none =>
    unfold update_practice_session
    rw [hs]
    exact h
  | some s =>
    have hssid : s.sid = sid := findSession_sid hs
    have hsmem : s ∈ st.sessions := findSession_mem hs
    have hcore := applyRatingFields_core s upd
    have hnsid : (applyRatingFields s upd).sid = sid := by rw [hcore.1, hssid]
    have hfindA : st.sessions.find? (fun v => v.sid = (applyRatingFields s upd).sid) =
        some s := by
      rw [hnsid]
      exact hs
    cases hfr : upd.focus_rating with
    | none =>
      rw [update_unchanged_char st sid upd s hs (by rw [hfr])]
      exact inv_setSession_samepts st s _ hfindA hcore.2.1 hcore.2.2.1 hcore.2.2.2 h
    | some v =>
      by_cases hne : v = s.focus_rating
      · rw [update_unchanged_char st sid upd s hs (by rw [hfr]; simp [hne])]
        exact inv_setSession_samepts st s _ hfindA hcore.2.1 hcore.2.2.1 hcore.2.2.2 h
      · cases hu : getUser st s.user_id with
        | none =>
          have hres : update_practice_session st sid upd = (st, false) := by
            unfold update_practice_session
            rw [hs]
            try dsimp only []
            rw [hfr]
            try dsimp only []
            rw [if_pos (by simpa using hne), hu]
          rw [hres]
          exact h
        | some user =>
          obtain ⟨husers, hsess, hnodU, hnodS⟩ := h
          rw [update_changed_char st sid upd s user v hs hfr hne hu]
          try dsimp only []
          have huuid : user.uid = s.user_id := getUser_uid hu
          have humem : user ∈ st.users := getUser_mem hu
          have hUU : (updatedUser s upd user).uid = user.uid := rfl
          have hUS_uid : (updatedSession s upd user).user_id = s.user_id := hcore.2.1
          have hUS_dur : (updatedSession s upd user).duration_minutes =
            s.duration_minutes := hcore.2.2.1
          have hUS_sid : (updatedSession s upd user).sid = s.sid := hcore.1
          have hUS_pts : (updatedSession s upd user).points_earned =
            calculate_points (applyRatingFields s upd) user := rfl
          have hnp : 0 ≤ calculate_points (applyRatingFields s upd) user := by
            apply calculate_points_nonneg
            rw [hcore.2.2.1]
            exact (hsess s hsmem).2.1
          have hfindU : st.sessions.find?
              (fun x => x.sid = (updatedSession s upd user).sid) = some s := by
            rw [hUS_sid, hssid]
            exact hs
          refine ⟨?_, ?_, ?_, ?_⟩
          · intro u' hu'
            obtain ⟨w, hw, hweq⟩ := mem_setUser hu'
            have hw' : w ∈ st.users := hw
            by_cases hc : w.uid = (updatedUser s upd user).uid
            · rw [if_pos hc] at hweq
              subst hweq
              obtain ⟨hut, _, hub⟩ := husers user humem
              refine ⟨?_, ?_, ?_⟩
              · show user.total_points +
                  (calculate_points (applyRatingFields s upd) user - s.points_earned) =
                  sumPoints ((setSession st (updatedSession s upd user)).sessions)
                    (updatedUser s upd user).uid
                show user.total_points +
                  (calculate_points (applyRatingFields s upd) user - s.points_earned) =
                  sumPoints (st.sessions.map (fun x =>
                    if x.sid = (updatedSession s upd user).sid then
                      updatedSession s upd user else x)) (updatedUser s upd user).uid
                rw [sumPoints_replace st.sessions s (updatedSession s upd user) _
                  hfindU hnodS]
                rw [hUU, hUS_uid, huuid]
                rw [if_pos rfl, if_pos rfl, hUS_pts]
                rw [← huuid, hut]
                ring
              · apply update_user_level_pos
                show 0 ≤ user.total_points +
                  (calculate_points (applyRatingFields s upd) user - s.points_earned)
                obtain ⟨hut, _, _⟩ := husers user humem
                have hsum : sumPoints (st.sessions.map (fun x =>
                    if x.sid = (updatedSession s upd user).sid then
                      updatedSession s upd user else x)) user.uid =
                    sumPoints st.sessions user.uid -
                      (if s.user_id = user.uid then s.points_earned else 0) +
                      (if (updatedSession s upd user).user_id = user.uid then
                        (updatedSession s upd user).points_earned else 0) :=
                  sumPoints_replace st.sessions s (updatedSession s upd user) _
                    hfindU hnodS
                rw [hUS_uid, if_pos (show s.user_id = user.uid from huuid.symm),
                  if_pos (show s.user_id = user.uid from huuid.symm), hUS_pts] at hsum
                have hsumpos : 0 ≤ sumPoints (st.sessions.map (fun x =>
                    if x.sid = (updatedSession s upd user).sid then
                      updatedSession s upd user else x)) user.uid := by
                  apply sumPoints_nonneg
                  intro x hx
                  obtain ⟨y, hy, hyeq⟩ := List.mem_map.mp hx
                  by_cases hcy : y.sid = (updatedSession s upd user).sid
                  · rw [if_pos hcy] at hyeq
                    rw [← hyeq, hUS_pts]
                    exact hnp
                  · rw [if_neg hcy] at hyeq
                    rw [← hyeq]
                    exact (hsess y hy).1
                omega
              · rw [hUU]
                exact hub
            · rw [if_neg hc] at hweq
              obtain ⟨hwt, hwl, hwb⟩ := husers w hw'
              rw [hweq]
              refine ⟨?_, hwl, hwb⟩
              show w.total_points = sumPoints (st.sessions.map (fun x =>
                if x.sid = (updatedSession s upd user).sid then
                  updatedSession s upd user else x)) w.uid
              rw [sumPoints_replace st.sessions s (updatedSession s upd user) _
                hfindU hnodS]
              have hne2 : ¬ s.user_id = w.uid := by
                rw [← huuid]
                exact fun he => hc (by rw [hUU]; exact he.symm)
              rw [if_neg hne2, if_neg (by rw [hUS_uid]; exact hne2), hwt]
              ring
          · intro s' hs'
            have hs'' : s' ∈ (setSession st (updatedSession s upd user)).sessions := hs'
            obtain ⟨y, hy, hyeq⟩ := mem_setSession hs''
            by_cases hcy : y.sid = (updatedSession s upd user).sid
            · rw [if_pos hcy] at hyeq
              subst hyeq
              obtain ⟨p1, p2, p3, p4⟩ := hsess s hsmem
              refine ⟨by rw [hUS_pts]; exact hnp, by rw [hUS_dur]; exact p2, ?_,
                by rw [hUS_uid]; exact p4⟩
              show (updatedSession s upd user).sid < st.next_session_id
              rw [hUS_sid]
              exact p3
            · rw [if_neg hcy] at hyeq
              rw [hyeq]
              exact hsess y hy
          · show (((setUser (setSession st (updatedSession s upd user))
              (updatedUser s upd user)).users).map User.uid).Nodup
            rw [setUser_map_uid]
            exact hnodU
          · show (((setSession st (updatedSession s upd user)).sessions).map
              PSession.sid).Nodup
            rw [setSession_map_sid]
            exact hnodS

theorem inv_deleteSession (st : EngineState) (sid : Nat) (h : Inv st) :
    Inv (delete_practice_session st sid).1 := by
  obtain ⟨husers, hsess, hnodU, hnodS⟩ := h
  cases hs : findSession st.sessions sid with
  | none =>
    unfold delete_practice_session
    rw [hs]
    exact ⟨husers, hsess, hnodU, hnodS⟩
  | some s =>
    rw [delete_found_char st sid s hs]
    try dsimp only []
    have hssid : s.sid = sid := findSession_sid hs
    have hsmem : s ∈ st.sessions := findSession_mem hs
    have hfind : st.sessions.find? (fun v => v.sid = sid) = some s := hs
    cases hu : getUser st s.user_id with
    | none =>
      rw [deleteUserAdj_notfound st s hu]
      have hnouser : ∀ v ∈ st.users, ¬ v.uid = s.user_id := by
        intro v hv
        have := List.find?_eq_none.mp hu v hv
        simpa using this
      unfold Inv
      have hU : (deleteRows (((st.session_tasks.filter
          (fun l => l.session_id = sid)).foldl deleteTaskStep st)) sid).users =
          st.users :=
        foldl_proj_eq EngineState.users deleteTaskStep deleteTaskStep_users _ _
      have hS : (deleteRows (((st.session_tasks.filter
          (fun l => l.session_id = sid)).foldl deleteTaskStep st)) sid).sessions =
          st.sessions.filter (fun v => ¬ v.sid = sid) := by
        show (((st.session_tasks.filter (fun l => l.session_id = sid)).foldl
          deleteTaskStep st).sessions).filter (fun v => ¬ v.sid = sid) = _
        rw [foldl_proj_eq EngineState.sessions deleteTaskStep deleteTaskStep_sessions]
      have hNU : (deleteRows (((st.session_tasks.filter
          (fun l => l.session_id = sid)).foldl deleteTaskStep st)) sid).next_user_id =
          st.next_user_id :=
        foldl_proj_eq EngineState.next_user_id deleteTaskStep deleteTaskStep_next_user _ _
      have hNS : (deleteRows (((st.session_tasks.filter
          (fun l => l.session_id = sid)).foldl deleteTaskStep st)) sid).next_session_id =
          st.next_session_id :=
        foldl_proj_eq EngineState.next_session_id deleteTaskStep
          deleteTaskStep_next_session _ _
      rw [hU, hS, hNU, hNS]
      refine ⟨?_, ?_, ?_, ?_⟩
      · intro u hu2
        obtain ⟨hut, hul, hub⟩ := husers u hu2
        refine ⟨?_, hul, hub⟩
        rw [sumPoints_remove st.sessions s sid u.uid hfind hnodS]
        rw [if_neg (fun he => hnouser u hu2 he.symm), hut]
        ring
      · intro s' hs'
        exact hsess s' (List.mem_filter.mp hs').1
      · exact hnodU
      · exact ((List.filter_sublist _).map PSession.sid).nodup hnodS
    | some user =>
      rw [deleteUserAdj_found st s user hu]
      have huuid : user.uid = s.user_id := getUser_uid hu
      have humem : user ∈ st.users := getUser_mem hu
      have hDU : (deletedUser user s).uid = user.uid := rfl
      unfold Inv
      have hU : (deleteRows ((((setUser st (deletedUser user s)).session_tasks.filter
          (fun l => l.session_id = sid)).foldl deleteTaskStep
            (setUser st (deletedUser user s)))) sid).users =
          (setUser st (deletedUser user s)).users :=
        foldl_proj_eq EngineState.users deleteTaskStep deleteTaskStep_users _ _
      have hS : (deleteRows ((((setUser st (deletedUser user s)).session_tasks.filter
          (fun l => l.session_id = sid)).foldl deleteTaskStep
            (setUser st (deletedUser user s)))) sid).sessions =
          st.sessions.filter (fun v => ¬ v.sid = sid) := by
        show ((((setUser st (deletedUser user s)).session_tasks.filter
          (fun l => l.session_id = sid)).foldl deleteTaskStep
            (setUser st (deletedUser user s))).sessions).filter
          (fun v => ¬ v.sid = sid) = _
        rw [foldl_proj_eq EngineState.sessions deleteTaskStep deleteTaskStep_sessions]
        rfl
      have hNU : (deleteRows ((((setUser st (deletedUser user s)).session_tasks.filter
          (fun l => l.session_id = sid)).foldl deleteTaskStep
            (setUser st (deletedUser user s)))) sid).next_user_id = st.next_user_id :=
        foldl_proj_eq EngineState.next_user_id deleteTaskStep deleteTaskStep_next_user _ _
      have hNS : (deleteRows ((((setUser st (deletedUser user s)).session_tasks.filter
          (fun l => l.session_id = sid)).foldl deleteTaskStep
            (setUser st (deletedUser user s)))) sid).next_session_id =
          st.next_session_id :=
        foldl_proj_eq EngineState.next_session_id deleteTaskStep
          deleteTaskStep_next_session _ _
      rw [hU, hS, hNU, hNS]
      have hremove : sumPoints (st.sessions.filter (fun v => ¬ v.sid = sid)) user.uid =
          sumPoints st.sessions user.uid - s.points_earned := by
        rw [sumPoints_remove st.sessions s sid user.uid hfind hnodS,
          if_pos huuid.symm]
      have hrestpos : 0 ≤ sumPoints (st.sessions.filter (fun v => ¬ v.sid = sid))
          user.uid := by
        apply sumPoints_nonneg
        intro x hx
        exact (hsess x (List.mem_filter.mp hx).1).1
      refine ⟨?_, ?_, ?_, ?_⟩
      · intro u' hu'
        obtain ⟨w, hw, hweq⟩ := mem_setUser hu'
        by_cases hc : w.uid = (deletedUser user s).uid
        · rw [if_pos hc] at hweq
          subst hweq
          obtain ⟨hut, _, hub⟩ := husers user humem
          refine ⟨?_, ?_, ?_⟩
          · show max 0 (user.total_points - s.points_earned) =
              sumPoints (st.sessions.filter (fun v => ¬ v.sid = sid))
                (deletedUser user s).uid
            rw [hDU, hremove, hut]
            omega
          · apply update_user_level_pos
            show (0:Int) ≤ max 0 (user.total_points - s.points_earned)
            exact le_max_left 0 _
          · rw [hDU]
            exact hub
        · rw [if_neg hc] at hweq
          obtain ⟨hwt, hwl, hwb⟩ := husers w hw
          rw [hweq]
          refine ⟨?_, hwl, hwb⟩
          rw [sumPoints_remove st.sessions s sid w.uid hfind hnodS]
          rw [if_neg (by
            rw [← huuid]
            exact fun he => hc (by rw [hDU]; exact he.symm)), hwt]
          ring
      · intro s' hs'
        exact hsess s' (List.mem_filter.mp hs').1
      · rw [setUser_map_uid]
        exact hnodU
      · exact ((List.filter_sublist _).map PSession.sid).nodup hnodS

theorem inv_applyOp (st : EngineState) (op : Op) (hval : ValidOp op) (h : Inv st) :
    Inv (applyOp st op) := by
  cases op with
  | newUser => exact inv_newUser st h
  | createSession today inp => exact inv_createSession today st inp hval.1 h
  | updateSession sid upd => exact inv_updateSession st sid upd h
  | deleteSession sid => exact inv_deleteSession st sid h

theorem inv_foldl :
    ∀ (ops : List Op), (∀ op ∈ ops, ValidOp op) →
      ∀ st, Inv st → Inv (ops.foldl applyOp st) := by
  intro ops
  induction ops with
  | nil => intro _ st h; exact h
  | cons op rest ih =>
    intro hval st h
    rw [List.foldl_cons]
    exact ih (fun o ho => hval o (List.mem_cons_of_mem op ho)) (applyOp st op)
      (inv_applyOp st op (hval op (List.mem_cons_self op rest)) h)

/-- **C10.** Starting from an empty store, after any sequence of validated
engine operations (user creation, session logging, rating updates that
apply a raw point delta, session deletes that floor at zero), every user's
`total_points` is a non-negative integer and their level is at least 1. -/
theorem claim10_points_nonneg (ops : List Op) (hval : ∀ op ∈ ops, ValidOp op) :
    ∀ u ∈ (ops.foldl applyOp initState).users,
      0 ≤ u.total_points ∧ 1 ≤ u.level := by
  intro u hu
  have hinv : Inv (ops.foldl applyOp initState) := inv_foldl ops hval initState inv_initState
  obtain ⟨husers, hsess, _, _⟩ := hinv
  obtain ⟨ht, hl, _⟩ := husers u hu
  refine ⟨?_, hl⟩
  rw [ht]
  exact sumPoints_nonneg _ _ (fun s hs => (hsess s hs).1)

/-- Instantiation: after creating a user in an empty store, that user has
non-negative points and a positive level. -/
theorem claim10_witness :
    0 ≤ (⟨1, 0, 0, 1, none⟩ : User).total_points ∧
      1 ≤ (⟨1, 0, 0, 1, none⟩ : User).level :=
  claim10_points_nonneg [Op.newUser]
    (by
      intro op hop
      have : op = Op.newUser := by simpa using hop
      subst this
      trivial)
    ⟨1, 0, 0, 1, none⟩ (by decide)

end PracticeBeats
